import Mathlib

/-!
# Verification of the devops-sdk cost / waste / optimization core

Shallow embedding of the numeric core of the `sdk` Go package:

* `cost.go` (src/unnamed/part_006): resource quantities, pricing, monthly
  cost estimation (`calculateMonthlyCost`).
* `waste.go` (src/unnamed/part_007): waste thresholds, per-resource waste
  analysis, heuristic no-usage analysis, waste scoring
  (`analyzeUnitWaste`, `calculateWasteScore`, ...).
* `optimizer.go`: safety configuration, per-dimension optimization
  (`optimizeCPU`, `optimizeMemory`, `optimizeReplicas`), StatefulSet
  damping, multi-container proportional redistribution
  (`distributeOptimizedResource`), and the deep-copy / manifest-edit
  machinery (`copyManifest`, `applyReplicaOptimization`, ...).

Modelling conventions:

* Go `float64` values are modelled as exact rationals (`ℚ`).  Where a
  claim is specifically about IEEE special values (NaN / ±Inf), the
  function is embedded over `EF`, an extended-rational type with the
  IEEE-754 rules for NaN/infinity propagation on the operations the
  source uses.  `EF` abstracts from rounding, overflow and signed zero:
  every Go float produced by converting an `int32`/`int64` is a +0-signed
  exact value in the ranges exercised here, so special-value generation
  (x/0, 0*Inf, NaN propagation, NaN comparisons) is faithful.
* Go `int32`/`int64` are modelled as `ℤ` (no claim exercises wraparound;
  all relevant source arithmetic stays far inside the machine ranges).
* Strings that only carry formatted numbers for display (descriptions,
  `Action`/`Implementation` texts, formatted quantity strings) are not
  part of any claim and are modelled by the underlying numeric value or
  omitted; enum-like strings ("HIGH", "LOW", "EXCELLENT", ...) are kept
  as `String` exactly as in the source.
-/

namespace Sdk

/-- Extended rational: the value domain of Go `float64` as used by
`calculateMonthlyCost` / `analyzeReplicaWaste`, with NaN and the two
infinities.  Finite values are exact rationals (no rounding/overflow). -/
inductive EF where
  | nan : EF
  | pinf : EF
  | ninf : EF
  | fin (q : ℚ) : EF
deriving DecidableEq, Repr

/-- IEEE `<` on `EF`: any comparison with NaN is false. -/
def EF.lt : EF → EF → Bool
  | nan, _ => false
  | _, nan => false
  | ninf, ninf => false
  | ninf, pinf => true
  | ninf, fin _ => true
  | pinf, _ => false
  | fin _, pinf => true
  | fin _, ninf => false
  | fin a, fin b => decide (a < b)

/-- `math.IsNaN`. -/
def EF.isNaN : EF → Bool
  | nan => true
  | _ => false

/-- `math.IsInf(x, 0)`: true for either infinity. -/
def EF.isInf : EF → Bool
  | pinf => true
  | ninf => true
  | _ => false

/-- IEEE multiplication on `EF` (0 × ∞ = NaN, NaN propagates). -/
def EF.mul : EF → EF → EF
  | nan, _ => nan
  | _, nan => nan
  | pinf, pinf => pinf
  | pinf, ninf => ninf
  | ninf, pinf => ninf
  | ninf, ninf => pinf
  | pinf, fin q => if q = 0 then nan else if 0 < q then pinf else ninf
  | fin q, pinf => if q = 0 then nan else if 0 < q then pinf else ninf
  | ninf, fin q => if q = 0 then nan else if 0 < q then ninf else pinf
  | fin q, ninf => if q = 0 then nan else if 0 < q then ninf else pinf
  | fin a, fin b => fin (a * b)

/-- IEEE addition on `EF` (∞ + (−∞) = NaN, NaN propagates). -/
def EF.add : EF → EF → EF
  | nan, _ => nan
  | _, nan => nan
  | pinf, ninf => nan
  | ninf, pinf => nan
  | pinf, _ => pinf
  | _, pinf => pinf
  | ninf, _ => ninf
  | _, ninf => ninf
  | fin a, fin b => fin (a + b)

/-- IEEE negation on `EF`. -/
def EF.neg : EF → EF
  | nan => nan
  | pinf => ninf
  | ninf => pinf
  | fin a => fin (-a)

/-- IEEE subtraction on `EF`. -/
def EF.sub (x y : EF) : EF := x.add y.neg

/-- IEEE division on `EF`.  Division by (+)0 of a nonzero finite value
yields the correspondingly signed infinity, `0/0 = NaN` (the model has no
signed zero; every zero the source divides by arises from a nonnegative
integer conversion, hence is +0). -/
def EF.div : EF → EF → EF
  | nan, _ => nan
  | _, nan => nan
  | pinf, pinf => nan
  | pinf, ninf => nan
  | ninf, pinf => nan
  | ninf, ninf => nan
  | pinf, fin b => if 0 ≤ b then pinf else ninf
  | ninf, fin b => if 0 ≤ b then ninf else pinf
  | fin _, pinf => fin 0
  | fin _, ninf => fin 0
  | fin a, fin b =>
      if b = 0 then (if a = 0 then nan else if 0 < a then pinf else ninf)
      else fin (a / b)

/-- Go `math.Max` (NaN if either argument is NaN). -/
def EF.max2 (x y : EF) : EF :=
  if x.isNaN || y.isNaN then .nan else if x.lt y then y else x

/-- `x` is a finite, nonnegative value — the shape the spec's clamping
discipline promises for every cost accumulation point. -/
def EF.finNonneg : EF → Prop
  | fin q => 0 ≤ q
  | _ => False

instance : DecidablePred EF.finNonneg := fun x => by
  cases x <;> simp [EF.finNonneg] <;> infer_instance

/-! ## Cost module (`cost.go`, src/unnamed/part_006) -/

/-- `ResourceQuantity` (cost.go): dual numeric representation, millicores
for CPU and bytes for memory/storage.  The canonical string form is
display-only and omitted. -/
structure ResourceQuantity where
  milli : ℤ
  bytes : ℤ
deriving DecidableEq, Repr

/-- `MilliValue`. -/
def ResourceQuantity.MilliValue (rq : ResourceQuantity) : ℤ := rq.milli

/-- `BytesValue`. -/
def ResourceQuantity.BytesValue (rq : ResourceQuantity) : ℤ := rq.bytes

/-- `PricingModel` (cost.go): caller-supplied rates, Go `float64`,
modelled over `EF` so that NaN/∞ pricing is expressible (claim C3
quantifies over "arbitrary pricing"). -/
structure PricingModel where
  CPUHourly : EF
  MemoryHourly : EF
  StorageGB : EF
deriving DecidableEq, Repr

/-- `DefaultPricing` (cost.go): $0.024/vCPU-hour, $0.006/GB-hour,
$0.10/GB-month. -/
def DefaultPricing : PricingModel :=
  { CPUHourly := .fin (24/1000)
    MemoryHourly := .fin (6/1000)
    StorageGB := .fin (1/10) }

/-- `CostBreakdown` (cost.go). -/
structure CostBreakdown where
  CPUCost : EF
  MemoryCost : EF
  StorageCost : EF
deriving DecidableEq, Repr

/-- The `if v < 0 { v = 0 }` bounds-checking pattern of
`calculateMonthlyCost` (applied to `cpuCores`, `memoryBytes`,
`storageBytes`). -/
def qClamp (q : ℚ) : ℚ := if q < 0 then 0 else q

/-- The `if math.IsNaN(c) || math.IsInf(c, 0) { c = 0 }` pattern applied
to each cost component in `calculateMonthlyCost`. -/
def nanInfClamp (x : EF) : EF := if x.isNaN || x.isInf then .fin 0 else x

/-- `calculateMonthlyCost` (cost.go lines 454–521), as a function of the
numeric inputs it reads from the estimate (`CPU.MilliValue()`,
`Memory.BytesValue()`, `Storage.BytesValue()`, `Replicas`) and of the
pricing model.  Returns the total together with the breakdown the source
stores into `estimate.Breakdown`.  In the invalid-pricing early return the
source leaves the breakdown at its zero value (the estimate is freshly
allocated by every caller), modelled as an all-zero breakdown. -/
def calculateMonthlyCost (pricing : PricingModel)
    (cpuMilli memBytes storageBytes replicas : ℤ) : EF × CostBreakdown :=
  let replicas : ℤ := if replicas < 0 then 0 else replicas
  if pricing.CPUHourly.lt (.fin 0) || pricing.MemoryHourly.lt (.fin 0) ||
      pricing.StorageGB.lt (.fin 0) then
    (.fin 0, ⟨.fin 0, .fin 0, .fin 0⟩)
  else
    let hoursPerMonth : EF := .fin (24 * 30)
    let repl : EF := .fin (replicas : ℚ)
    let cpuCores : ℚ := qClamp ((cpuMilli : ℚ) / 1000)
    let cpuCost : EF :=
      nanInfClamp ((((EF.fin cpuCores).mul pricing.CPUHourly).mul hoursPerMonth).mul repl)
    let memoryGB : ℚ := qClamp (memBytes : ℚ) / (1024 * 1024 * 1024)
    let memoryCost : EF :=
      nanInfClamp ((((EF.fin memoryGB).mul pricing.MemoryHourly).mul hoursPerMonth).mul repl)
    let storageGB : ℚ := qClamp (storageBytes : ℚ) / (1024 * 1024 * 1024)
    let storageCost : EF :=
      nanInfClamp (((EF.fin storageGB).mul pricing.StorageGB).mul repl)
    let breakdown : CostBreakdown := ⟨cpuCost, memoryCost, storageCost⟩
    let totalCost : EF := (cpuCost.add memoryCost).add storageCost
    if totalCost.isNaN || totalCost.isInf || totalCost.lt (.fin 0) then
      (.fin 0, breakdown)
    else
      (totalCost, breakdown)

/-- "Not negative": finite nonnegative, NaN, or +∞.  This is the shape of
every intermediate product inside `calculateMonthlyCost` once the pricing
validation has passed; the per-component NaN/Inf clamp then turns it into
`finNonneg`. -/
def EF.NN : EF → Prop
  | nan => True
  | pinf => True
  | ninf => False
  | fin q => 0 ≤ q

/-! ## Waste module (`waste.go`, src/unnamed/part_007)

Embedded over `ℚ`.  Display-only strings (`Allocated`, `Used`,
`Recommendation`, descriptions) are modelled by the numeric value that the
source formats into them.  `AnalyzedAt` (a `time.Now()` stamp) is omitted;
`assessDataQuality` takes the current time as an explicit parameter, with
time measured in hours. -/

/-- `WasteThresholds` (waste.go). -/
structure WasteThresholds where
  CPUIdleThreshold : ℚ
  CPUUnderutilizedThreshold : ℚ
  CPUOverprovisionedRatio : ℚ
  MemoryIdleThreshold : ℚ
  MemoryUnderutilizedThreshold : ℚ
  MemoryOverprovisionedRatio : ℚ
  MinMonthlyCostForAnalysis : ℚ
  WasteScoreHighThreshold : ℚ
  WasteScoreMediumThreshold : ℚ
  IdleDurationDays : ℤ
  UnderutilizedDurationDays : ℤ
deriving DecidableEq, Repr

/-- `DefaultWasteThresholds` (waste.go lines 62–74). -/
def DefaultWasteThresholds : WasteThresholds :=
  { CPUIdleThreshold := 5
    CPUUnderutilizedThreshold := 30
    CPUOverprovisionedRatio := 3
    MemoryIdleThreshold := 10
    MemoryUnderutilizedThreshold := 40
    MemoryOverprovisionedRatio := 5/2
    MinMonthlyCostForAnalysis := 1
    WasteScoreHighThreshold := 80
    WasteScoreMediumThreshold := 50
    IdleDurationDays := 7
    UnderutilizedDurationDays := 14 }

/-- `ActualUsageMetrics` (waste.go).  `TimeRangeStart`/`TimeRangeEnd` are
hours since an arbitrary epoch. -/
structure ActualUsageMetrics where
  UnitID : String
  TimeRangeStart : ℚ
  TimeRangeEnd : ℚ
  CPUUtilizationPercent : ℚ
  MemoryUtilizationPercent : ℚ
  CPUCoresUsed : ℚ
  MemoryBytesUsed : ℤ
  NetworkBytesTotal : ℤ
  StorageBytesUsed : ℤ
  ActualMonthlyCost : ℚ
  AverageReplicas : ℚ
  UptimePercent : ℚ
  CPUPeakPercent : ℚ
  MemoryPeakPercent : ℚ
deriving DecidableEq, Repr

/-- `CostBreakdown` as consumed by the waste analyzer (rational view of
the same source struct). -/
structure CostBreakdownQ where
  CPUCost : ℚ
  MemoryCost : ℚ
  StorageCost : ℚ
deriving DecidableEq, Repr

/-- `UnitCostEstimate` (cost.go).  The source field `Type` is `Ty` here
(`Type` is reserved in Lean). -/
structure UnitCostEstimate where
  UnitID : String
  UnitName : String
  Space : String
  Ty : String
  Replicas : ℤ
  CPU : ResourceQuantity
  Memory : ResourceQuantity
  Storage : ResourceQuantity
  MonthlyCost : ℚ
  Breakdown : CostBreakdownQ
deriving DecidableEq, Repr

/-- `ResourceWaste` (waste.go).  `Allocated`/`Used`/`Recommendation` hold
the numeric value the source formats into the display string (cores for
CPU, GiB for memory). -/
structure ResourceWaste where
  Allocated : ℚ
  Used : ℚ
  UtilizationPercent : ℚ
  WastePercent : ℚ
  WastedCost : ℚ
  Recommendation : ℚ
deriving DecidableEq, Repr

/-- The Go zero value of `ResourceWaste` (e.g. the never-assigned
`StorageWaste` field). -/
def zeroResourceWaste : ResourceWaste := ⟨0, 0, 0, 0, 0, 0⟩

/-- `ReplicaWaste` (waste.go), rational view. -/
structure ReplicaWaste where
  ConfiguredReplicas : ℤ
  AverageReplicas : ℚ
  IdleReplicas : ℚ
  WastedCost : ℚ
  Recommendation : ℤ
deriving DecidableEq, Repr

/-- The Go zero value of `ReplicaWaste`. -/
def zeroReplicaWaste : ReplicaWaste := ⟨0, 0, 0, 0, 0⟩

/-- `WasteCategory` (waste.go); the formatted `Description` is omitted.
The source field `Type` is `Ty` here. -/
structure WasteCategory where
  Ty : String
  Severity : String
  Impact : ℚ
deriving DecidableEq, Repr

/-- `WasteRecommendation` (waste.go); the formatted `Action`,
`Implementation` and `RiskDescription` strings are omitted. -/
structure WasteRecommendation where
  Ty : String
  Priority : String
  PotentialSavings : ℚ
  Risk : String
  AutoApplyable : Bool
deriving DecidableEq, Repr

/-- `WasteDetection` (waste.go); `AnalyzedAt` omitted. -/
structure WasteDetection where
  UnitID : String
  UnitName : String
  Space : String
  Ty : String
  EstimatedMonthlyCost : ℚ
  ActualMonthlyCost : ℚ
  WastedMonthlyCost : ℚ
  WasteCategories : List WasteCategory
  WasteScore : ℚ
  WasteSeverity : String
  CPUWaste : ResourceWaste
  MemoryWaste : ResourceWaste
  StorageWaste : ResourceWaste
  ReplicaWaste : ReplicaWaste
  Recommendations : List WasteRecommendation
  PotentialSavings : ℚ
  DataQuality : String
deriving DecidableEq, Repr

/-- `analyzeCPUWaste` (waste.go lines 340–361).  Note: the waste percent
is the raw signed ratio — there is no `max(0, ·)` clamp in the source. -/
def analyzeCPUWaste (estimate : UnitCostEstimate) (usage : ActualUsageMetrics) :
    ResourceWaste :=
  let allocatedCores : ℚ := (estimate.CPU.MilliValue : ℚ) / 1000
  let usedCores : ℚ := usage.CPUCoresUsed
  let wastePercent : ℚ :=
    if 0 < allocatedCores then ((allocatedCores - usedCores) / allocatedCores) * 100 else 0
  let recommendedCores : ℚ := max (usage.CPUPeakPercent / 100 * allocatedCores * (11/10)) (1/10)
  { Allocated := allocatedCores
    Used := usedCores
    UtilizationPercent := usage.CPUUtilizationPercent
    WastePercent := wastePercent
    WastedCost := estimate.Breakdown.CPUCost * (wastePercent / 100)
    Recommendation := recommendedCores }

/-- `analyzeMemoryWaste` (waste.go lines 364–385); same unclamped ratio,
computed over bytes. -/
def analyzeMemoryWaste (estimate : UnitCostEstimate) (usage : ActualUsageMetrics) :
    ResourceWaste :=
  let allocatedBytes : ℤ := estimate.Memory.BytesValue
  let usedBytes : ℤ := usage.MemoryBytesUsed
  let wastePercent : ℚ :=
    if 0 < allocatedBytes then
      (((allocatedBytes - usedBytes : ℤ) : ℚ) / (allocatedBytes : ℚ)) * 100
    else 0
  let recommendedGB : ℚ :=
    max ((allocatedBytes : ℚ) * (usage.MemoryPeakPercent / 100) * (12/10) /
      (1024 * 1024 * 1024)) (128/1000)
  { Allocated := (allocatedBytes : ℚ) / (1024 * 1024 * 1024)
    Used := (usedBytes : ℚ) / (1024 * 1024 * 1024)
    UtilizationPercent := usage.MemoryUtilizationPercent
    WastePercent := wastePercent
    WastedCost := estimate.Breakdown.MemoryCost * (wastePercent / 100)
    Recommendation := recommendedGB }

/-- `analyzeReplicaWaste` (waste.go lines 388–410), rational view as used
inside `analyzeUnitWaste` (in `ℚ` the division `MonthlyCost / configured`
is total, with `q / 0 = 0`; `analyzeReplicaWasteF` below captures the true
float behaviour at `configured = 0`, which claim C3 is about). -/
def analyzeReplicaWaste (estimate : UnitCostEstimate) (usage : ActualUsageMetrics) :
    ReplicaWaste :=
  let configured : ℤ := estimate.Replicas
  let average : ℚ := usage.AverageReplicas
  let idle : ℚ := max ((configured : ℚ) - average) 0
  let costPerReplica : ℚ := estimate.MonthlyCost / (configured : ℚ)
  let recommended0 : ℤ := ⌈average⌉ + 1
  { ConfiguredReplicas := configured
    AverageReplicas := average
    IdleReplicas := idle
    WastedCost := idle * costPerReplica
    Recommendation := if recommended0 < 2 then 2 else recommended0 }

/-- `categorizeWaste` (waste.go lines 413–468): idle, CPU/memory
over-provisioning (severity escalated below the idle threshold), and
over-replication, in source order. -/
def categorizeWaste (th : WasteThresholds) (detection : WasteDetection)
    (usage : ActualUsageMetrics) : List WasteCategory :=
  (if usage.CPUUtilizationPercent < th.CPUIdleThreshold ∧
      usage.MemoryUtilizationPercent < th.MemoryIdleThreshold then
    [{ Ty := "idle", Severity := "HIGH",
       Impact := detection.EstimatedMonthlyCost * (8/10) }]
  else []) ++
  (if detection.CPUWaste.UtilizationPercent < th.CPUUnderutilizedThreshold then
    [{ Ty := "cpu-over-provisioned"
       Severity :=
         if detection.CPUWaste.UtilizationPercent < th.CPUIdleThreshold then "HIGH"
         else "MEDIUM"
       Impact := detection.CPUWaste.WastedCost }]
  else []) ++
  (if detection.MemoryWaste.UtilizationPercent < th.MemoryUnderutilizedThreshold then
    [{ Ty := "memory-over-provisioned"
       Severity :=
         if detection.MemoryWaste.UtilizationPercent < th.MemoryIdleThreshold then "HIGH"
         else "MEDIUM"
       Impact := detection.MemoryWaste.WastedCost }]
  else []) ++
  (if (1/2 : ℚ) < detection.ReplicaWaste.IdleReplicas then
    [{ Ty := "over-replicated", Severity := "MEDIUM",
       Impact := detection.ReplicaWaste.WastedCost }]
  else [])

/-- `determinePriority` (waste.go lines 672–679). -/
def determinePriority (savings : ℚ) : String :=
  if 50 ≤ savings then "HIGH" else if 20 ≤ savings then "MEDIUM" else "LOW"

/-- `generateWasteRecommendations` (waste.go lines 471–531), in source
order: CPU resize (auto-applyable, LOW risk), memory resize, replica
scale-down, terminate-if-idle. -/
def generateWasteRecommendations (detection : WasteDetection)
    (_estimate : UnitCostEstimate) (usage : ActualUsageMetrics) :
    List WasteRecommendation :=
  (if 30 < detection.CPUWaste.WastePercent then
    [{ Ty := "resize", Priority := determinePriority detection.CPUWaste.WastedCost,
       PotentialSavings := detection.CPUWaste.WastedCost * (8/10),
       Risk := "LOW", AutoApplyable := true }]
  else []) ++
  (if 30 < detection.MemoryWaste.WastePercent then
    [{ Ty := "resize", Priority := determinePriority detection.MemoryWaste.WastedCost,
       PotentialSavings := detection.MemoryWaste.WastedCost * (8/10),
       Risk := "MEDIUM", AutoApplyable := false }]
  else []) ++
  (if (1/2 : ℚ) < detection.ReplicaWaste.IdleReplicas then
    [{ Ty := "scale-down", Priority := determinePriority detection.ReplicaWaste.WastedCost,
       PotentialSavings := detection.ReplicaWaste.WastedCost * (9/10),
       Risk := "HIGH", AutoApplyable := false }]
  else []) ++
  (if usage.CPUUtilizationPercent < 1 ∧ usage.MemoryUtilizationPercent < 5 ∧
      usage.UptimePercent < 50 then
    [{ Ty := "terminate", Priority := "HIGH",
       PotentialSavings := detection.EstimatedMonthlyCost * (95/100),
       Risk := "HIGH", AutoApplyable := false }]
  else [])

/-- `analyzeWithoutUsageData` (waste.go lines 534–577): heuristic analysis
with the fixed low-confidence `WasteScore` of 25 and `LOW` severity. -/
def analyzeWithoutUsageData (estimate : UnitCostEstimate) : WasteDetection :=
  let cpuCores : ℚ := (estimate.CPU.MilliValue : ℚ) / 1000
  let memoryGi : ℚ := (estimate.Memory.BytesValue : ℚ) / (1024 * 1024 * 1024)
  { UnitID := estimate.UnitID
    UnitName := estimate.UnitName
    Space := estimate.Space
    Ty := estimate.Ty
    EstimatedMonthlyCost := estimate.MonthlyCost
    ActualMonthlyCost := estimate.MonthlyCost
    WastedMonthlyCost := 0
    WasteCategories :=
      (if 2 < cpuCores then
        [{ Ty := "potentially-over-provisioned", Severity := "MEDIUM",
           Impact := estimate.Breakdown.CPUCost * (3/10) }]
      else []) ++
      (if 4 < memoryGi then
        [{ Ty := "potentially-over-provisioned", Severity := "MEDIUM",
           Impact := estimate.Breakdown.MemoryCost * (3/10) }]
      else [])
    WasteScore := 25
    WasteSeverity := "LOW"
    CPUWaste := zeroResourceWaste
    MemoryWaste := zeroResourceWaste
    StorageWaste := zeroResourceWaste
    ReplicaWaste := zeroReplicaWaste
    Recommendations := []
    PotentialSavings := 0
    DataQuality := "POOR" }

/-- The per-category factor of the severity multiplier loop in
`calculateWasteScore`. -/
def severityFactor (c : WasteCategory) : ℚ :=
  if c.Severity = "HIGH" then 3/2 else if c.Severity = "MEDIUM" then 6/5 else 1

/-- The data-quality switch of `calculateWasteScore` (waste.go lines
604–615): EXCELLENT 1.0, GOOD 0.9, FAIR 0.7, POOR 0.5, anything else
left at 1.0. -/
def dataQualityMultiplier (quality : String) : ℚ :=
  if quality = "EXCELLENT" then 1
  else if quality = "GOOD" then 9/10
  else if quality = "FAIR" then 7/10
  else if quality = "POOR" then 1/2
  else 1

/-- `calculateWasteScore` (waste.go lines 580–625): base score
`max(0, wasted/estimated) × 100`, multiplied per category by 1.5 (HIGH) /
1.2 (MEDIUM), multiplied by the data-quality factor, capped at 100. -/
def calculateWasteScore (detection : WasteDetection) : ℚ :=
  if detection.EstimatedMonthlyCost = 0 then 0
  else
    let wasteRatio0 : ℚ := detection.WastedMonthlyCost / detection.EstimatedMonthlyCost
    let wasteRatio : ℚ := if wasteRatio0 < 0 then 0 else wasteRatio0
    let baseScore : ℚ := wasteRatio * 100
    let severityMultiplier : ℚ :=
      detection.WasteCategories.foldl (fun m c => m * severityFactor c) 1
    let qualityMultiplier : ℚ := dataQualityMultiplier detection.DataQuality
    let score : ℚ := baseScore * severityMultiplier * qualityMultiplier
    if 100 < score then 100 else score

/-- `determineWasteSeverity` (waste.go lines 628–635). -/
def determineWasteSeverity (th : WasteThresholds) (wasteScore : ℚ) : String :=
  if th.WasteScoreHighThreshold ≤ wasteScore then "HIGH"
  else if th.WasteScoreMediumThreshold ≤ wasteScore then "MEDIUM"
  else "LOW"

/-- `calculatePotentialSavings` (waste.go lines 638–652). -/
def calculatePotentialSavings (detection : WasteDetection) : ℚ :=
  let totalSavings : ℚ := (detection.Recommendations.map (·.PotentialSavings)).sum
  let maxSavings : ℚ := detection.EstimatedMonthlyCost * (9/10)
  if maxSavings < totalSavings then maxSavings else totalSavings

/-- `assessDataQuality` (waste.go lines 655–669); `now` and the range
bounds are in hours (`24*time.Hour` = 24). -/
def assessDataQuality (now : ℚ) (usage : ActualUsageMetrics) : String :=
  let dataAge : ℚ := now - usage.TimeRangeEnd
  let dataSpan : ℚ := usage.TimeRangeEnd - usage.TimeRangeStart
  if dataAge < 24 ∧ 7 * 24 ≤ dataSpan then "EXCELLENT"
  else if dataAge < 3 * 24 ∧ 3 * 24 ≤ dataSpan then "GOOD"
  else if dataAge < 7 * 24 ∧ 24 ≤ dataSpan then "FAIR"
  else "POOR"

/-- `analyzeUnitWaste` (waste.go lines 287–337): the per-unit entry point.
Returns `none` (`nil`) below the minimum-cost threshold; otherwise builds
the detection (usage-driven or heuristic) and then unconditionally
recomputes `WastedMonthlyCost`, `WasteScore`, `WasteSeverity` and
`PotentialSavings`. -/
def analyzeUnitWaste (th : WasteThresholds) (now : ℚ) (estimate : UnitCostEstimate)
    (usage : ActualUsageMetrics) (hasUsageData : Bool) : Option WasteDetection :=
  if estimate.MonthlyCost < th.MinMonthlyCostForAnalysis then none
  else
    let base : WasteDetection :=
      { UnitID := estimate.UnitID
        UnitName := estimate.UnitName
        Space := estimate.Space
        Ty := estimate.Ty
        EstimatedMonthlyCost := estimate.MonthlyCost
        ActualMonthlyCost := estimate.MonthlyCost
        WastedMonthlyCost := 0
        WasteCategories := []
        WasteScore := 0
        WasteSeverity := ""
        CPUWaste := zeroResourceWaste
        MemoryWaste := zeroResourceWaste
        StorageWaste := zeroResourceWaste
        ReplicaWaste := zeroReplicaWaste
        Recommendations := []
        PotentialSavings := 0
        DataQuality := "POOR" }
    let detection : WasteDetection :=
      if hasUsageData then
        let d1 : WasteDetection :=
          { base with
            ActualMonthlyCost := usage.ActualMonthlyCost
            DataQuality := assessDataQuality now usage
            CPUWaste := analyzeCPUWaste estimate usage
            MemoryWaste := analyzeMemoryWaste estimate usage
            ReplicaWaste := analyzeReplicaWaste estimate usage }
        let d2 : WasteDetection := { d1 with WasteCategories := categorizeWaste th d1 usage }
        { d2 with Recommendations := generateWasteRecommendations d2 estimate usage }
      else
        analyzeWithoutUsageData estimate
    let detection2 : WasteDetection :=
      { detection with
        WastedMonthlyCost := detection.EstimatedMonthlyCost - detection.ActualMonthlyCost }
    let detection3 : WasteDetection :=
      { detection2 with
        WasteScore := calculateWasteScore detection2
        WasteSeverity := determineWasteSeverity th (calculateWasteScore detection2) }
    some { detection3 with PotentialSavings := calculatePotentialSavings detection3 }

/-! ## Waste module, replica analysis over `EF` (`waste.go` lines 388–410)

`analyzeReplicaWaste` performs unclamped float arithmetic; it is embedded
over `EF` because claim C3 is precisely about NaN/∞ behaviour.  The
`Recommendation` string (a `math.Ceil`-based replica suggestion) is not
referenced by any claim and is omitted. -/

/-- `ReplicaWaste` (waste.go), numeric fields. -/
structure ReplicaWasteF where
  ConfiguredReplicas : ℤ
  AverageReplicas : EF
  IdleReplicas : EF
  WastedCost : EF
deriving DecidableEq, Repr

/-- `analyzeReplicaWaste` (waste.go lines 388–410) over `EF`:
`idle = max(configured − average, 0)`,
`costPerReplica = monthlyCost / configured` (no zero guard),
`wastedCost = idle × costPerReplica` (no clamp). -/
def analyzeReplicaWasteF (configured : ℤ) (average monthlyCost : EF) : ReplicaWasteF :=
  let idle : EF := EF.max2 ((EF.fin (configured : ℚ)).sub average) (.fin 0)
  let costPerReplica : EF := monthlyCost.div (.fin (configured : ℚ))
  let wastedCost : EF := idle.mul costPerReplica
  { ConfiguredReplicas := configured
    AverageReplicas := average
    IdleReplicas := idle
    WastedCost := wastedCost }

/-! ## Optimization engine (`optimizer.go`) -/

/-- `RiskThresholds` (optimizer.go). -/
structure RiskThresholds where
  LowRiskCPUReduction : ℚ
  LowRiskMemoryReduction : ℚ
  HighRiskCPUReduction : ℚ
  HighRiskMemoryReduction : ℚ
deriving DecidableEq, Repr

/-- `SafetyConfiguration` (optimizer.go). -/
structure SafetyConfiguration where
  CPUSafetyMargin : ℚ
  MemorySafetyMargin : ℚ
  MinCPUCores : ℚ
  MinMemoryGB : ℚ
  MinReplicas : ℤ
  MaxReplicaReduction : ℚ
  RiskThresholds : RiskThresholds
deriving DecidableEq, Repr

/-- `DefaultSafetyConfiguration` (optimizer.go lines 61–74). -/
def DefaultSafetyConfiguration : SafetyConfiguration :=
  { CPUSafetyMargin := 1/5
    MemorySafetyMargin := 3/20
    MinCPUCores := 1/10
    MinMemoryGB := 128/1000
    MinReplicas := 1
    MaxReplicaReduction := 1/2
    RiskThresholds :=
      { LowRiskCPUReduction := 3/10
        LowRiskMemoryReduction := 1/4
        HighRiskCPUReduction := 3/5
        HighRiskMemoryReduction := 1/2 } }

/-- `WasteMetrics` (optimizer.go); `MetricsAge` in hours. -/
structure WasteMetrics where
  CPUWastePercent : ℚ
  MemoryWastePercent : ℚ
  StorageWastePercent : ℚ
  IdleReplicas : ℤ
  UnderutilizedPods : List String
  WasteConfidence : ℚ
  MetricsAge : ℚ
deriving DecidableEq, Repr

/-- `ResourceSpecs` (optimizer.go). -/
structure ResourceSpecs where
  CPU : ResourceQuantity
  Memory : ResourceQuantity
  Storage : ResourceQuantity
  Replicas : ℤ
deriving DecidableEq, Repr

/-- `ResourceOptimization` (optimizer.go).  `OriginalValue` /
`OptimizedValue` carry the numeric content the source formats into
strings (millicores for cpu, bytes for memory, count for replicas;
`fmt.Sprintf("%.0fm", ...)` rounding happens only at display time); the
`Reasoning` string is omitted. -/
structure ResourceOptimization where
  Ty : String
  OriginalValue : ℚ
  OptimizedValue : ℚ
  ReductionPercent : ℚ
  Risk : String
deriving DecidableEq, Repr

/-- `categorizeRisk` (optimizer.go lines 655–662). -/
def categorizeRisk (reductionPercent lowThreshold highThreshold : ℚ) : String :=
  if reductionPercent < lowThreshold then "LOW"
  else if highThreshold < reductionPercent then "HIGH"
  else "MEDIUM"

/-- `optimizeCPU` (optimizer.go lines 530–571). -/
def optimizeCPU (cfg : SafetyConfiguration) (current : ResourceQuantity)
    (wastePercent confidence : ℚ) : Option ResourceOptimization :=
  if wastePercent ≤ 1/10 ∨ confidence < 1/2 then none
  else
    let currentMillis : ℚ := (current.MilliValue : ℚ)
    if currentMillis = 0 then none
    else
      let reductionPercent : ℚ := min (wastePercent * confidence) (7/10)
      let reduction : ℚ := currentMillis * reductionPercent
      let optimizedMillis0 : ℚ := (currentMillis - reduction) * (1 + cfg.CPUSafetyMargin)
      let minMillis : ℚ := cfg.MinCPUCores * 1000
      let optimizedMillis : ℚ := if optimizedMillis0 < minMillis then minMillis else optimizedMillis0
      let finalReduction : ℚ := (currentMillis - optimizedMillis) / currentMillis
      if finalReduction < 1/20 then none
      else
        some { Ty := "cpu"
               OriginalValue := currentMillis
               OptimizedValue := optimizedMillis
               ReductionPercent := finalReduction * 100
               Risk := categorizeRisk finalReduction cfg.RiskThresholds.LowRiskCPUReduction
                 cfg.RiskThresholds.HighRiskCPUReduction }

/-- `optimizeMemory` (optimizer.go lines 574–616). -/
def optimizeMemory (cfg : SafetyConfiguration) (current : ResourceQuantity)
    (wastePercent confidence : ℚ) : Option ResourceOptimization :=
  if wastePercent ≤ 1/10 ∨ confidence < 1/2 then none
  else
    let currentBytes : ℚ := (current.BytesValue : ℚ)
    if currentBytes = 0 then none
    else
      let reductionPercent : ℚ := min (wastePercent * confidence) (3/5)
      let reduction : ℚ := currentBytes * reductionPercent
      let optimizedBytes0 : ℚ := (currentBytes - reduction) * (1 + cfg.MemorySafetyMargin)
      let minBytes : ℚ := cfg.MinMemoryGB * 1024 * 1024 * 1024
      let optimizedBytes : ℚ := if optimizedBytes0 < minBytes then minBytes else optimizedBytes0
      let finalReduction : ℚ := (currentBytes - optimizedBytes) / currentBytes
      if finalReduction < 1/20 then none
      else
        some { Ty := "memory"
               OriginalValue := currentBytes
               OptimizedValue := optimizedBytes
               ReductionPercent := finalReduction * 100
               Risk := categorizeRisk finalReduction cfg.RiskThresholds.LowRiskMemoryReduction
                 cfg.RiskThresholds.HighRiskMemoryReduction }

/-- `optimizeReplicas` (optimizer.go lines 619–652).  The source's
`int32(float64(current) * MaxReplicaReduction)` is `⌊current × r⌋`
(`float64` of an `int32` is exact and Go's float→int conversion truncates;
the product is nonnegative whenever the branch is reached with the
positive inputs the claims quantify over). -/
def optimizeReplicas (cfg : SafetyConfiguration) (current idle : ℤ) :
    Option ResourceOptimization :=
  if idle ≤ 0 ∨ current ≤ cfg.MinReplicas then none
  else
    let optimized0 : ℤ := current - idle
    let optimized1 : ℤ := if optimized0 < cfg.MinReplicas then cfg.MinReplicas else optimized0
    let reductionRatio : ℚ := ((current - optimized1 : ℤ) : ℚ) / (current : ℚ)
    let optimized : ℤ :=
      if cfg.MaxReplicaReduction < reductionRatio then
        current - ⌊(current : ℚ) * cfg.MaxReplicaReduction⌋
      else optimized1
    if current ≤ optimized then none
    else
      let finalReduction : ℚ := ((current - optimized : ℤ) : ℚ) / (current : ℚ)
      some { Ty := "replicas"
             OriginalValue := (current : ℚ)
             OptimizedValue := (optimized : ℚ)
             ReductionPercent := finalReduction * 100
             Risk := if 1/2 < finalReduction then "HIGH" else "MEDIUM" }

/-- The three per-dimension optimization decisions of the Deployment
path. -/
structure DeploymentOptimizations where
  cpu : Option ResourceOptimization
  mem : Option ResourceOptimization
  repl : Option ResourceOptimization
deriving DecidableEq, Repr

/-- Numeric core of `optimizeDeployment` (optimizer.go lines 181–259):
CPU considered only when waste > 10 %, memory only when waste > 10 %,
replicas only when idle replicas > 0 (manifest application and unit
construction are modelled separately). -/
def optimizeDeploymentCore (cfg : SafetyConfiguration) (specs : ResourceSpecs)
    (waste : WasteMetrics) : DeploymentOptimizations :=
  { cpu :=
      if 1/10 < waste.CPUWastePercent then
        optimizeCPU cfg specs.CPU waste.CPUWastePercent waste.WasteConfidence
      else none
    mem :=
      if 1/10 < waste.MemoryWastePercent then
        optimizeMemory cfg specs.Memory waste.MemoryWastePercent waste.WasteConfidence
      else none
    repl :=
      if 0 < waste.IdleReplicas then
        optimizeReplicas cfg specs.Replicas waste.IdleReplicas
      else none }

/-- The damped ("conservative") metrics `optimizeStatefulSet` builds
(optimizer.go lines 264–271).  `UnderutilizedPods` is not copied by the
source literal, so it is the zero value `[]`. -/
def conservativeWasteMetrics (waste : WasteMetrics) : WasteMetrics :=
  { CPUWastePercent := waste.CPUWastePercent * (7/10)
    MemoryWastePercent := waste.MemoryWastePercent * (7/10)
    StorageWastePercent := waste.StorageWastePercent
    IdleReplicas := waste.IdleReplicas / 2
    UnderutilizedPods := []
    WasteConfidence := waste.WasteConfidence * (8/10)
    MetricsAge := waste.MetricsAge }

/-- Numeric core of `optimizeStatefulSet` (optimizer.go lines 262–274):
the Deployment path on the damped metrics. -/
def optimizeStatefulSetCore (cfg : SafetyConfiguration) (specs : ResourceSpecs)
    (waste : WasteMetrics) : DeploymentOptimizations :=
  optimizeDeploymentCore cfg specs (conservativeWasteMetrics waste)

/-- The damped metrics exactly as claim C8 words them ("w'.CPUWastePercent
= 0.7 × w.CPUWastePercent, w'.MemoryWastePercent = 0.7 ×
w.MemoryWastePercent, w'.IdleReplicas = w.IdleReplicas ÷ 2,
w'.WasteConfidence = 0.8 × w.WasteConfidence, and storage waste
unchanged"; the fields the claim does not mention are left unchanged). -/
def claimDampedMetrics (w : WasteMetrics) : WasteMetrics :=
  { CPUWastePercent := (7/10) * w.CPUWastePercent
    MemoryWastePercent := (7/10) * w.MemoryWastePercent
    StorageWastePercent := w.StorageWastePercent
    IdleReplicas := w.IdleReplicas / 2
    UnderutilizedPods := w.UnderutilizedPods
    WasteConfidence := (8/10) * w.WasteConfidence
    MetricsAge := w.MetricsAge }

/-! ## Multi-container redistribution (`optimizer.go` lines 711–833)

`distributeOptimizedResource` reads each container's baseline for one
resource dimension (requests if positive, else limits if positive — the
same fallback used when the totals were built), sums the positive
baselines, and writes `total × baseline/sum` into each container that has
a positive proportion.  The written value is formatted with
`fmt.Sprintf("%.0fm", ...)` / `"%.0fMi"`, i.e. rounded to the nearest
whole unit (ties to even); `rhe` models that rounding.  Baselines and the
optimized total are in whole units (millicores resp. Mi), as produced by
`ParseQuantity` on the formatted strings the caller passes. -/

/-- Round to nearest, ties to even — the rounding of Go's
`fmt.Sprintf("%.0f", ...)`. -/
def rhe (q : ℚ) : ℤ :=
  let f : ℤ := ⌊q⌋
  let r : ℚ := q - (f : ℚ)
  if r < 1/2 then f
  else if 1/2 < r then f + 1
  else if Even f then f else f + 1

/-- `calculateContainerProportion` (optimizer.go lines 767–793) for one
baseline `b` against the positive-baseline sum `S`: the container amount
counts only if positive, and the quotient is taken only when `S > 0`. -/
def calculateContainerProportion (b S : ℤ) : ℚ :=
  let amount : ℤ := if 0 < b then b else 0
  if 0 < S then (amount : ℚ) / (S : ℚ) else 0

/-- `distributeOptimizedResource` (optimizer.go lines 711–764) /
`distributeEquallyAmongContainers` (lines 809–833), as a function of the
per-container baselines `bs` (whole units) and the optimized total:
proportional split over the positive baselines when any exists, equal
split otherwise; containers with zero proportion are left untouched
(`none`). -/
def distributeOptimizedResource (total : ℤ) (bs : List ℤ) : List (Option ℤ) :=
  if bs.isEmpty then []
  else
    let S : ℤ := (bs.filter (fun b => decide (0 < b))).sum
    if bs.any (fun b => decide (0 < b)) then
      bs.map (fun b =>
        let p := calculateContainerProportion b S
        if 0 < p then some (rhe ((total : ℚ) * p)) else none)
    else
      bs.map (fun _ => some (rhe ((total : ℚ) / (bs.length : ℚ))))

/-- Sum of the values actually written by a distribution step. -/
def assignedSum (l : List (Option ℤ)) : ℤ := (l.filterMap id).sum

/-! ## Concrete inputs used by witnesses and counterexamples -/

/-- Usage metrics with every field at its zero value (the Go zero value a
map lookup yields when no usage entry exists). -/
def usageZero : ActualUsageMetrics :=
  { UnitID := ""
    TimeRangeStart := 0
    TimeRangeEnd := 0
    CPUUtilizationPercent := 0
    MemoryUtilizationPercent := 0
    CPUCoresUsed := 0
    MemoryBytesUsed := 0
    NetworkBytesTotal := 0
    StorageBytesUsed := 0
    ActualMonthlyCost := 0
    AverageReplicas := 0
    UptimePercent := 0
    CPUPeakPercent := 0
    MemoryPeakPercent := 0 }

/-- C1 failing input: a unit that passes the $1 minimum-cost filter
(3 cores / 8 GiB, $10/month) and has no usage metrics. -/
def estC1 : UnitCostEstimate :=
  { UnitID := "unit-c1"
    UnitName := "web"
    Space := "dev"
    Ty := "Deployment"
    Replicas := 2
    CPU := ⟨3000, 0⟩
    Memory := ⟨0, 8589934592⟩
    Storage := ⟨0, 0⟩
    MonthlyCost := 10
    Breakdown := ⟨6, 4, 0⟩ }

/-- C2 counterexample input: 1 allocated core. -/
def estC2 : UnitCostEstimate :=
  { UnitID := "unit-c2"
    UnitName := "api"
    Space := "dev"
    Ty := "Deployment"
    Replicas := 1
    CPU := ⟨1000, 0⟩
    Memory := ⟨0, 1073741824⟩
    Storage := ⟨0, 0⟩
    MonthlyCost := 20
    Breakdown := ⟨10, 5, 0⟩ }

/-- C2 counterexample usage: 2 cores actually used — usage exceeds
allocation. -/
def usageC2 : ActualUsageMetrics := { usageZero with CPUCoresUsed := 2 }

/-- C9 witness input: a unit costing $0.50/month, below the default $1
minimum-cost threshold. -/
def estC9 : UnitCostEstimate :=
  { UnitID := "unit-c9"
    UnitName := "tiny"
    Space := "dev"
    Ty := "Deployment"
    Replicas := 1
    CPU := ⟨50, 0⟩
    Memory := ⟨0, 134217728⟩
    Storage := ⟨0, 0⟩
    MonthlyCost := 1/2
    Breakdown := ⟨1/4, 1/4, 0⟩ }

/-- C4 counterexample input: $100 estimated, $20 wasted, two HIGH waste
categories, EXCELLENT data quality. -/
def detC4 : WasteDetection :=
  { UnitID := "unit-c4"
    UnitName := "db"
    Space := "dev"
    Ty := "StatefulSet"
    EstimatedMonthlyCost := 100
    ActualMonthlyCost := 80
    WastedMonthlyCost := 20
    WasteCategories :=
      [{ Ty := "idle", Severity := "HIGH", Impact := 80 },
       { Ty := "cpu-over-provisioned", Severity := "HIGH", Impact := 10 }]
    WasteScore := 0
    WasteSeverity := ""
    CPUWaste := zeroResourceWaste
    MemoryWaste := zeroResourceWaste
    StorageWaste := zeroResourceWaste
    ReplicaWaste := zeroReplicaWaste
    Recommendations := []
    PotentialSavings := 0
    DataQuality := "EXCELLENT" }

/-- The severity multiplier as claim C4 words it: a flat 1.5 when any
category is HIGH and a flat 1.2 when any is MEDIUM (reading the two
conditions cumulatively; under either reading the multiplier depends only
on which severities are present, not on how many categories carry
them). -/
def claimSeverityMultiplier (cats : List WasteCategory) : ℚ :=
  (if cats.any (fun c => decide (c.Severity = "HIGH")) then 3/2 else 1) *
  (if cats.any (fun c => decide (c.Severity = "MEDIUM")) then 6/5 else 1)

/-- The waste score as claim C4 words it:
`min(100, max(0, wasted/estimated) × 100 × severityMultiplier ×
dataQualityMultiplier)` with the flat severity multiplier. -/
def claimWasteScore (d : WasteDetection) : ℚ :=
  min 100 (max 0 (d.WastedMonthlyCost / d.EstimatedMonthlyCost) * 100 *
    claimSeverityMultiplier d.WasteCategories * dataQualityMultiplier d.DataQuality)

/-! ## Heap model for the manifest copy/edit pipeline (`optimizer.go`)

Claim C10 is about Go heap behaviour: `optimizeDeployment` deep-copies the
parsed manifest (`copyManifest`/`copyValue`) and applies all resource and
replica edits *in place* to the copy, so the original tree must be
untouched.  The manifest heap is modelled explicitly: `Store` is an
address-indexed heap of `Node`s (scalar / string-keyed map / array, the
shapes `yaml.Unmarshal` produces), trees are read off a root address by
`HasTree`, and every mutating Go statement becomes an explicit
`Store.write`/`Store.alloc`.  Scalars are collapsed to `Node.prim` over a
single payload type (`String`) — Go scalars are immutable, so their
identity is irrelevant to the frame property. -/

/-- A heap node of the parsed manifest. -/
inductive Node where
  | prim (v : String)
  | mapn (fields : List (String × ℕ))
  | arrn (elems : List ℕ)
deriving DecidableEq, Repr

/-- Child addresses of a node. -/
def Node.children : Node → List ℕ
  | .prim _ => []
  | .mapn fields => fields.map (·.2)
  | .arrn elems => elems

/-- The manifest heap: a bump allocator over `Node`s. -/
structure Store where
  next : ℕ
  mem : ℕ → Option Node

/-- The allocator invariant: nothing lives at or above `next`. -/
def Store.Wf (st : Store) : Prop := ∀ a, st.next ≤ a → st.mem a = none

/-- In-place update of an existing node (a Go map/slice mutation). -/
def Store.write (st : Store) (a : ℕ) (n : Node) : Store :=
  { next := st.next, mem := fun x => if x = a then some n else st.mem x }

/-- Allocation of a fresh node (a Go literal / `make`). -/
def Store.alloc (st : Store) (n : Node) : Store × ℕ :=
  ({ next := st.next + 1, mem := fun x => if x = st.next then some n else st.mem x },
   st.next)

/-- Pure manifest trees (the denotation of a heap region). -/
inductive Tree where
  | prim (v : String)
  | mapt (fields : List (String × Tree))
  | arrt (elems : List Tree)

/-- `HasTree mem a t`: address `a` denotes tree `t` in heap `mem`. -/
inductive HasTree (mem : ℕ → Option Node) : ℕ → Tree → Prop where
  | prim {a : ℕ} {v : String} :
      mem a = some (.prim v) → HasTree mem a (.prim v)
  | mapn {a : ℕ} {fields : List (String × ℕ)} {ts : List (String × Tree)} :
      mem a = some (.mapn fields) →
      fields.length = ts.length →
      (∀ i (h1 : i < fields.length) (h2 : i < ts.length),
        (fields.get ⟨i, h1⟩).1 = (ts.get ⟨i, h2⟩).1) →
      (∀ i (h1 : i < fields.length) (h2 : i < ts.length),
        HasTree mem (fields.get ⟨i, h1⟩).2 (ts.get ⟨i, h2⟩).2) →
      HasTree mem a (.mapt ts)
  | arrn {a : ℕ} {elems : List ℕ} {ts : List Tree} :
      mem a = some (.arrn elems) →
      elems.length = ts.length →
      (∀ i (h1 : i < elems.length) (h2 : i < ts.length),
        HasTree mem (elems.get ⟨i, h1⟩) (ts.get ⟨i, h2⟩)) →
      HasTree mem a (.arrt ts)

/-- Heaps that agree below `n`. -/
def lowAgree (n : ℕ) (m1 m2 : ℕ → Option Node) : Prop := ∀ x, x < n → m2 x = m1 x

/-- Every node at or above `n₀` points only at or above `n₀` (the copy
region is closed, so in-place edits that navigate from the copy root never
reach an original address). -/
def ClosedAbove (n₀ : ℕ) (st : Store) : Prop :=
  ∀ a node, n₀ ≤ a → st.mem a = some node → ∀ c ∈ node.children, n₀ ≤ c

/-- `copyValue` (optimizer.go lines 1157–1201) with a fuel bound for
termination: recursively deep-copies the graph reachable from `a`,
allocating fresh nodes (`copyManifest` is the `mapn` entry point).  `none`
means a dangling address or exhausted fuel; on the well-formed trees the
pipeline passes, any fuel above the tree height succeeds. -/
def copyValue : ℕ → Store → ℕ → Option (Store × ℕ)
  | 0, _, _ => none
  | fuel + 1, st, a =>
    match st.mem a with
    | none => none
    | some (.prim v) => some (st.alloc (.prim v))
    | some (.mapn fields) =>
        (fields.foldlM (fun (acc : Store × List (String × ℕ)) (kv : String × ℕ) => do
          let r ← copyValue fuel acc.1 kv.2
          pure (r.1, acc.2 ++ [(kv.1, r.2)])) (st, ([] : List (String × ℕ)))).map
          (fun (acc : Store × List (String × ℕ)) => acc.1.alloc (.mapn acc.2))
    | some (.arrn elems) =>
        (elems.foldlM (fun (acc : Store × List ℕ) (e : ℕ) => do
          let r ← copyValue fuel acc.1 e
          pure (r.1, acc.2 ++ [r.2])) (st, ([] : List ℕ))).map
          (fun (acc : Store × List ℕ) => acc.1.alloc (.arrn acc.2))

/-- Go map lookup `fields[k]` on the assoc-list view of a map node. -/
def lookupField (fields : List (String × ℕ)) (k : String) : Option ℕ :=
  match fields with
  | [] => none
  | (k', a) :: rest => if k' = k then some a else lookupField rest k

/-- Go map assignment `fields[k] = a`: replace in place or append. -/
def setField (fields : List (String × ℕ)) (k : String) (a : ℕ) :
    List (String × ℕ) :=
  match fields with
  | [] => [(k, a)]
  | (k', a') :: rest =>
      if k' = k then (k', a) :: rest else (k', a') :: setField rest k a

/-- `m[k].(map[string]interface{})`-style navigation: the child address
under key `k`, when `a` is a map node. -/
def mapLookup (st : Store) (a : ℕ) (k : String) : Option ℕ :=
  match st.mem a with
  | some (.mapn fields) => lookupField fields k
  | _ => none

/-- `applyReplicaOptimization` (optimizer.go lines 877–883):
`spec["replicas"] = optimized` applied in place to the manifest rooted at
`root`; a no-op when the navigation fails (the `ok` type assertions). -/
def applyReplicaOptimizationH (st : Store) (root : ℕ) (v : String) : Store :=
  match mapLookup st root "spec" with
  | some specAddr =>
      match st.mem specAddr with
      | some (.mapn fields) =>
          let r := st.alloc (.prim v)
          r.1.write specAddr (.mapn (setField fields "replicas" r.2))
      | _ => st
  | none => st

/-- The shared shape of the two update arms of
`setContainerResourceSafely`: write `val` under key `rt` into the sub-map
`k1` ("requests" / "limits") of the resources map at `resAddr` (whose
current fields are `rf`), creating the sub-map when absent or non-map. -/
def updateSubMap (st : Store) (resAddr : ℕ) (rf : List (String × ℕ))
    (k1 rt val : String) : Store :=
  match lookupField rf k1 with
  | some subAddr =>
      match st.mem subAddr with
      | some (.mapn qf) =>
          let r := st.alloc (.prim val)
          r.1.write subAddr (.mapn (setField qf rt r.2))
      | _ =>
          let r := st.alloc (.prim val)
          let r2 := r.1.alloc (.mapn [(rt, r.2)])
          r2.1.write resAddr (.mapn (setField rf k1 r2.2))
  | none =>
      let r := st.alloc (.prim val)
      let r2 := r.1.alloc (.mapn [(rt, r.2)])
      r2.1.write resAddr (.mapn (setField rf k1 r2.2))

/-- `setContainerResourceSafely` (optimizer.go lines 836–874): writes the
request value and the derived limit value for `resourceType` into the
container map, creating the `resources`/`requests`/`limits` maps when
absent.  The numeric derivation of the limit (1.5× / 1.2×) happens before
formatting; here both formatted strings are parameters, since C10 is about
the heap effect only. -/
def setContainerResourceSafelyH (st : Store) (c : ℕ) (rt reqVal limVal : String) :
    Store :=
  match st.mem c with
  | some (.mapn cf) =>
    match lookupField cf "resources" with
    | some resAddr =>
      match st.mem resAddr with
      | some (.mapn rf) =>
          let st1 := updateSubMap st resAddr rf "requests" rt reqVal
          match st1.mem resAddr with
          | some (.mapn rf1) => updateSubMap st1 resAddr rf1 "limits" rt limVal
          | _ => st1
      | _ => st
    | none =>
        let r := st.alloc (.prim reqVal)
        let r2 := r.1.alloc (.mapn [(rt, r.2)])
        let r3 := r2.1.alloc (.prim limVal)
        let r4 := r3.1.alloc (.mapn [(rt, r3.2)])
        let r5 := r4.1.alloc (.mapn [("requests", r2.2), ("limits", r4.2)])
        r5.1.write c (.mapn (setField cf "resources" r5.2))
  | _ => st

/-- The per-container loop of `distributeOptimizedResource` /
`distributeEquallyAmongContainers`: write the already-computed
request/limit values (`vals`, `none` for skipped containers) into the
container nodes. -/
def applyToContainers (st : Store) (cs : List ℕ)
    (vals : List (Option (String × String))) (rt : String) : Store :=
  match cs, vals with
  | c :: cs', v :: vals' =>
      let st1 :=
        match v with
        | some rv => setContainerResourceSafelyH st c rt rv.1 rv.2
        | none => st
      applyToContainers st1 cs' vals' rt
  | _, _ => st

/-- `applyResourceOptimization` (optimizer.go lines 675–689): navigate
`spec.template.spec.containers` and distribute the per-container values in
place. -/
def applyResourceOptimizationH (st : Store) (root : ℕ) (rt : String)
    (vals : List (Option (String × String))) : Store :=
  match mapLookup st root "spec" with
  | some specA =>
    match mapLookup st specA "template" with
    | some tmplA =>
      match mapLookup st tmplA "spec" with
      | some podA =>
        match mapLookup st podA "containers" with
        | some contA =>
          match st.mem contA with
          | some (.arrn cs) => applyToContainers st cs vals rt
          | _ => st
        | none => st
      | none => st
    | none => st
  | none => st

/-- The manifest side of `optimizeDeployment` (optimizer.go lines
181–259): deep-copy the manifest, then apply the (pre-computed) CPU,
memory and replica edits to the copy.  `none` for a dimension models the
corresponding `if` guard not firing. -/
def optimizeDeploymentManifest (fuel : ℕ) (st : Store) (root : ℕ)
    (cpuVals memVals : Option (List (Option (String × String))))
    (replicaVal : Option String) : Option (Store × ℕ) :=
  match copyValue fuel st root with
  | none => none
  | some (st1, newRoot) =>
      let st2 :=
        match cpuVals with
        | some vs => applyResourceOptimizationH st1 newRoot "cpu" vs
        | none => st1
      let st3 :=
        match memVals with
        | some vs => applyResourceOptimizationH st2 newRoot "memory" vs
        | none => st2
      let st4 :=
        match replicaVal with
        | some v => applyReplicaOptimizationH st3 newRoot v
        | none => st3
      some (st4, newRoot)

/-- `Unit` (the ConfigHub record), identity fields only (labels,
annotations and the space UUID play no role in C10). -/
structure Unit where
  UnitID : String
  SpaceID : String
  Slug : String
  DisplayName : String
  Data : String
  UpstreamUnitID : Option String
deriving DecidableEq, Repr

/-- The optimized-unit construction of `optimizeDeployment` (optimizer.go
lines 234–243): a fresh record whose `UnitID` is the freshly generated
UUID (`uuid.New()`, modelled as the parameter `newId`) and whose
`UpstreamUnitID` points back at the original. -/
def optimizedUnit (newId : String) (unit : Unit) (data : String) : Unit :=
  { UnitID := newId
    SpaceID := unit.SpaceID
    Slug := unit.Slug ++ "-optimized"
    DisplayName := unit.DisplayName ++ " (Optimized)"
    Data := data
    UpstreamUnitID := some unit.UnitID }

/-- The invariant every in-place manifest edit preserves: the result heap
is still well-formed, the copy region is still closed, nothing below `n₀`
(the original manifest) changed, and the allocator only moved forward. -/
def EditOk (n₀ : ℕ) (st st' : Store) : Prop :=
  st'.Wf ∧ ClosedAbove n₀ st' ∧ lowAgree n₀ st.mem st'.mem ∧ st.next ≤ st'.next

/-- What `copyValue` guarantees about the heap: the result is well-formed,
nothing below the pre-call allocator mark changed, the allocator only moved
forward, and the freshly copied region is closed above the old mark. -/
def CopyOk (st st' : Store) : Prop := EditOk st.next st st'

/-- A concrete three-node manifest heap: `0 ↦ {spec: 1}`,
`1 ↦ {replicas: 2}`, `2 ↦ "3"`. -/
def listW : List Node := [.mapn [("spec", 1)], .mapn [("replicas", 2)], .prim "3"]

def stW : Store := ⟨3, fun a => listW.get? a⟩

def treeW : Tree := .mapt [("spec", .mapt [("replicas", .prim "3")])]

def unitW : Unit := ⟨"unit-1", "space-1", "app", "App", "yaml", none⟩

def runW : Option (Store × ℕ) := optimizeDeploymentManifest 4 stW 0 none none (some "2")

def stWx : Store := (runW.getD (stW, 0)).1

def rootWx : ℕ := (runW.getD (stW, 0)).2

theorem EF.NN.mul {x y : EF} (hx : x.NN) (hy : y.NN) : (x.mul y).NN := by
  cases x <;> cases y <;>
    simp_all only [EF.NN, EF.mul] <;>
    (try split_ifs with h1 h2) <;>
    (try simp_all only [EF.NN]) <;>
    first
      | trivial
      | exact mul_nonneg hx hy
      | exact h2 (lt_of_le_of_ne hx (Ne.symm h1))
      | exact h2 (lt_of_le_of_ne hy (Ne.symm h1))

theorem EF.NN_of_lt_zero_false {x : EF} (h : x.lt (.fin 0) = false) : x.NN := by
  cases x <;> simp_all [EF.NN, EF.lt]

theorem EF.finNonneg_of_NN_not_special {x : EF} (hx : x.NN)
    (h : (x.isNaN || x.isInf) = false) : x.finNonneg := by
  cases x <;> simp_all [EF.NN, EF.isNaN, EF.isInf, EF.finNonneg]

theorem EF.finNonneg_clamp {x : EF} (hx : x.NN) :
    (if x.isNaN || x.isInf then EF.fin 0 else x).finNonneg := by
  split_ifs with h
  · simp [EF.finNonneg]
  · exact EF.finNonneg_of_NN_not_special hx (by simpa using h)

theorem EF.finNonneg.add {x y : EF} (hx : x.finNonneg) (hy : y.finNonneg) :
    (x.add y).finNonneg := by
  cases x <;> cases y <;> simp_all [EF.finNonneg, EF.add] <;> positivity

theorem qClamp_nonneg (q : ℚ) : 0 ≤ qClamp q := by
  unfold qClamp
  split_ifs with h
  · exact le_refl 0
  · exact le_of_not_lt h

theorem nanInfClamp_finNonneg {x : EF} (hx : x.NN) : (nanInfClamp x).finNonneg :=
  EF.finNonneg_clamp hx

theorem EF.finNonneg_ite (c : Prop) [Decidable c] {a b : EF}
    (ha : a.finNonneg) (hb : b.finNonneg) : (if c then a else b).finNonneg := by
  split_ifs <;> assumption

theorem calculateMonthlyCost_clamped (pricing : PricingModel)
    (cpuMilli memBytes storageBytes replicas : ℤ) :
    (calculateMonthlyCost pricing cpuMilli memBytes storageBytes replicas).1.finNonneg ∧
    (calculateMonthlyCost pricing cpuMilli memBytes storageBytes replicas).2.CPUCost.finNonneg ∧
    (calculateMonthlyCost pricing cpuMilli memBytes storageBytes replicas).2.MemoryCost.finNonneg ∧
    (calculateMonthlyCost pricing cpuMilli memBytes storageBytes replicas).2.StorageCost.finNonneg := by
  unfold calculateMonthlyCost
  dsimp only
  by_cases hval : (pricing.CPUHourly.lt (.fin 0) || pricing.MemoryHourly.lt (.fin 0) ||
      pricing.StorageGB.lt (.fin 0)) = true
  · rw [if_pos hval]
    refine ⟨?_, ?_, ?_, ?_⟩ <;> simp [EF.finNonneg]
  · rw [if_neg hval]
    have hv' : pricing.CPUHourly.lt (.fin 0) = false ∧
        pricing.MemoryHourly.lt (.fin 0) = false ∧
        pricing.StorageGB.lt (.fin 0) = false := by
      simpa [not_or, and_assoc] using hval
    obtain ⟨hv1, hv2, hv3⟩ := hv'
    have hp1 := EF.NN_of_lt_zero_false hv1
    have hp2 := EF.NN_of_lt_zero_false hv2
    have hp3 := EF.NN_of_lt_zero_false hv3
    have hreplZ : (0 : ℤ) ≤ (if replicas < 0 then 0 else replicas) := by
      split_ifs <;> omega
    have hrepl : (EF.fin (((if replicas < 0 then 0 else replicas : ℤ)) : ℚ)).NN := by
      show (0 : ℚ) ≤ _
      exact_mod_cast hreplZ
    have h720 : (EF.fin ((24 : ℚ) * 30)).NN := by norm_num [EF.NN]
    have hcpu : (nanInfClamp ((((EF.fin (qClamp ((cpuMilli : ℚ) / 1000))).mul
        pricing.CPUHourly).mul (.fin (24 * 30))).mul
        (.fin (((if replicas < 0 then 0 else replicas : ℤ)) : ℚ)))).finNonneg :=
      nanInfClamp_finNonneg
        (EF.NN.mul (EF.NN.mul (EF.NN.mul (qClamp_nonneg _) hp1) h720) hrepl)
    have hmem : (nanInfClamp ((((EF.fin (qClamp (memBytes : ℚ) / (1024 * 1024 * 1024))).mul
        pricing.MemoryHourly).mul (.fin (24 * 30))).mul
        (.fin (((if replicas < 0 then 0 else replicas : ℤ)) : ℚ)))).finNonneg :=
      nanInfClamp_finNonneg
        (EF.NN.mul (EF.NN.mul (EF.NN.mul
          (div_nonneg (qClamp_nonneg _) (by norm_num)) hp2) h720) hrepl)
    have hsto : (nanInfClamp (((EF.fin (qClamp (storageBytes : ℚ) / (1024 * 1024 * 1024))).mul
        pricing.StorageGB).mul
        (.fin (((if replicas < 0 then 0 else replicas : ℤ)) : ℚ)))).finNonneg :=
      nanInfClamp_finNonneg
        (EF.NN.mul (EF.NN.mul (div_nonneg (qClamp_nonneg _) (by norm_num)) hp3) hrepl)
    refine ⟨?_, ?_, ?_, ?_⟩
    · rw [apply_ite Prod.fst]
      dsimp only
      exact EF.finNonneg_ite _ (by simp [EF.finNonneg])
        (EF.finNonneg.add (EF.finNonneg.add hcpu hmem) hsto)
    · rw [apply_ite (fun p : EF × CostBreakdown => p.2.CPUCost)]
      dsimp only
      rw [ite_self]
      exact hcpu
    · rw [apply_ite (fun p : EF × CostBreakdown => p.2.MemoryCost)]
      dsimp only
      rw [ite_self]
      exact hmem
    · rw [apply_ite (fun p : EF × CostBreakdown => p.2.StorageCost)]
      dsimp only
      rw [ite_self]
      exact hsto

theorem rhe_close (q : ℚ) : |((rhe q : ℤ) : ℚ) - q| ≤ 1/2 := by
  have h0 : ((⌊q⌋ : ℤ) : ℚ) ≤ q := Int.floor_le q
  have h1 : q < ((⌊q⌋ : ℤ) : ℚ) + 1 := Int.lt_floor_add_one q
  unfold rhe
  dsimp only
  split_ifs with ha hb hc
  · rw [abs_le]
    constructor <;> linarith
  · rw [abs_le]
    push_cast
    constructor <;> linarith
  · have hr : q - ((⌊q⌋ : ℤ) : ℚ) = 1/2 := le_antisymm (not_lt.mp hb) (not_lt.mp ha)
    rw [abs_le]
    constructor <;> linarith
  · have hr : q - ((⌊q⌋ : ℤ) : ℚ) = 1/2 := le_antisymm (not_lt.mp hb) (not_lt.mp ha)
    rw [abs_le]
    push_cast
    constructor <;> linarith

theorem sum_filter_pos_of_nonneg (bs : List ℤ) (h : ∀ b ∈ bs, 0 ≤ b) :
    (bs.filter (fun b => decide (0 < b))).sum = bs.sum := by
  induction bs with
  | nil => rfl
  | cons a l ih =>
    have ha := h a (by simp)
    have hl : ∀ b ∈ l, 0 ≤ b := fun b hb => h b (by simp [hb])
    by_cases hpos : 0 < a
    · simp [List.filter_cons, hpos, ih hl]
    · have ha0 : a = 0 := le_antisymm (not_lt.mp hpos) ha
      simp [List.filter_cons, hpos, ih hl, ha0]

theorem sum_map_rhe_close (l : List ℚ) :
    |(((l.map rhe).sum : ℤ) : ℚ) - l.sum| ≤ (l.length : ℚ) / 2 := by
  induction l with
  | nil => simp
  | cons a t ih =>
    have h1 := rhe_close a
    have key : |(((rhe a + (t.map rhe).sum : ℤ)) : ℚ) - (a + t.sum)| ≤
        ((t.length : ℚ) + 1) / 2 := by
      rw [Int.cast_add]
      have h2 : ((rhe a : ℤ) : ℚ) + (((t.map rhe).sum : ℤ) : ℚ) - (a + t.sum) =
          (((rhe a : ℤ) : ℚ) - a) + ((((t.map rhe).sum : ℤ) : ℚ) - t.sum) := by ring
      rw [h2]
      calc |(((rhe a : ℤ) : ℚ) - a) + ((((t.map rhe).sum : ℤ) : ℚ) - t.sum)| ≤
            |((rhe a : ℤ) : ℚ) - a| + |(((t.map rhe).sum : ℤ) : ℚ) - t.sum| := abs_add _ _
        _ ≤ 1/2 + (t.length : ℚ) / 2 := add_le_add h1 ih
        _ = ((t.length : ℚ) + 1) / 2 := by ring
    simpa [List.map_cons, List.sum_cons, List.length_cons] using key

theorem assignedSum_map_ite (bs : List ℤ) (g : ℤ → ℤ) :
    assignedSum (bs.map (fun b => if 0 < b then some (g b) else none)) =
      ((bs.filter (fun b => decide (0 < b))).map g).sum := by
  induction bs with
  | nil => rfl
  | cons a l ih =>
    by_cases hpos : 0 < a <;>
      simp_all [assignedSum, List.filter_cons, List.filterMap_cons, hpos]

theorem sum_map_scaled (l : List ℤ) (c : ℚ) :
    (l.map (fun b : ℤ => c * (b : ℚ))).sum = c * ((l.sum : ℤ) : ℚ) := by
  induction l with
  | nil => simp
  | cons a t ih =>
    simp only [List.map_cons, List.sum_cons, ih, Int.cast_add]
    ring

/-! ## Claim theorems -/

/-- **C1** (code-bug evidence).  For a unit that passes the minimum-cost
filter and has no usage metrics, the `WasteDetection` returned by
`analyzeUnitWaste` has `WasteScore` 0 — not the fixed 25 the claim (and
the heuristic path itself) promises: `analyzeWithoutUsageData` does set
`WasteScore = 25`, but `analyzeUnitWaste` then unconditionally recomputes
the score from `WastedMonthlyCost = estimated − actual = 0`, which yields
0.  The severity is `LOW` either way. -/
theorem C1_no_usage_waste_score_is_zero_not_25 :
    (analyzeUnitWaste DefaultWasteThresholds 0 estC1 usageZero false).map
        (fun d => (d.WasteScore, d.WasteSeverity)) = some (0, "LOW") ∧
    (analyzeWithoutUsageData estC1).WasteScore = 25 ∧
    DefaultWasteThresholds.MinMonthlyCostForAnalysis ≤ estC1.MonthlyCost := by
  refine ⟨?_, by norm_num [analyzeWithoutUsageData, estC1],
    by norm_num [DefaultWasteThresholds, estC1]⟩
  norm_num [analyzeUnitWaste, DefaultWasteThresholds, estC1, usageZero,
    analyzeWithoutUsageData, calculateWasteScore, determineWasteSeverity,
    calculatePotentialSavings, severityFactor, dataQualityMultiplier,
    zeroResourceWaste, zeroReplicaWaste, ResourceQuantity.MilliValue,
    ResourceQuantity.BytesValue]

/-- **C2** (counterexample).  With 1 core allocated and 2 cores used, the
CPU `WastePercent` computed by `analyzeCPUWaste` is −100 — negative, so it
is not `max(0, (allocated−used)/allocated)` and does not lie in `[0, 1]`
as a ratio. -/
theorem C2_cpu_waste_percent_negative :
    (analyzeCPUWaste estC2 usageC2).WastePercent = -100 ∧
    (analyzeCPUWaste estC2 usageC2).WastePercent < 0 := by
  norm_num [analyzeCPUWaste, estC2, usageC2, usageZero, ResourceQuantity.MilliValue]

/-- **C2** (amended).  The per-resource `WastePercent` is the *unclamped*
signed ratio: for positive allocation it equals
`((allocated − used)/allocated) × 100` (0 when the allocation is not
positive), it is nonnegative exactly when `used ≤ allocated`, and in
particular it is negative whenever usage exceeds allocation.  The
`max(0, ·)` clamp exists only in the waste-score path, not here. -/
theorem C2_waste_percent_is_unclamped_ratio (estimate : UnitCostEstimate)
    (usage : ActualUsageMetrics) :
    (0 < (estimate.CPU.MilliValue : ℚ) / 1000 →
      (analyzeCPUWaste estimate usage).WastePercent =
        (((estimate.CPU.MilliValue : ℚ) / 1000 - usage.CPUCoresUsed) /
          ((estimate.CPU.MilliValue : ℚ) / 1000)) * 100) ∧
    (¬ 0 < (estimate.CPU.MilliValue : ℚ) / 1000 →
      (analyzeCPUWaste estimate usage).WastePercent = 0) ∧
    (0 < (estimate.CPU.MilliValue : ℚ) / 1000 →
      (0 ≤ (analyzeCPUWaste estimate usage).WastePercent ↔
        usage.CPUCoresUsed ≤ (estimate.CPU.MilliValue : ℚ) / 1000)) ∧
    (0 < estimate.Memory.BytesValue →
      (analyzeMemoryWaste estimate usage).WastePercent =
        (((estimate.Memory.BytesValue - usage.MemoryBytesUsed : ℤ) : ℚ) /
          ((estimate.Memory.BytesValue : ℤ) : ℚ)) * 100) ∧
    (0 < estimate.Memory.BytesValue →
      (0 ≤ (analyzeMemoryWaste estimate usage).WastePercent ↔
        usage.MemoryBytesUsed ≤ estimate.Memory.BytesValue)) := by
  constructor
  · intro h
    simp only [analyzeCPUWaste, if_pos h]
  refine ⟨?_, ?_, ?_, ?_⟩
  · intro h
    simp only [analyzeCPUWaste, if_neg h]
  · intro h
    simp only [analyzeCPUWaste, if_pos h]
    set a : ℚ := (estimate.CPU.MilliValue : ℚ) / 1000 with ha
    have hrw : (a - usage.CPUCoresUsed) / a * 100 =
        (a - usage.CPUCoresUsed) * (100 / a) := by ring
    rw [hrw, mul_nonneg_iff_of_pos_right (by positivity), sub_nonneg]
  · intro h
    have h' : 0 < ((estimate.Memory.BytesValue : ℤ) : ℚ) := by exact_mod_cast h
    simp only [analyzeMemoryWaste, if_pos h]
  · intro h
    have h' : 0 < ((estimate.Memory.BytesValue : ℤ) : ℚ) := by exact_mod_cast h
    simp only [analyzeMemoryWaste, if_pos h]
    have hrw : (((estimate.Memory.BytesValue - usage.MemoryBytesUsed : ℤ) : ℚ)) /
        ((estimate.Memory.BytesValue : ℤ) : ℚ) * 100 =
        (((estimate.Memory.BytesValue : ℤ) : ℚ) - ((usage.MemoryBytesUsed : ℤ) : ℚ)) *
          (100 / ((estimate.Memory.BytesValue : ℤ) : ℚ)) := by push_cast; ring
    rw [hrw, mul_nonneg_iff_of_pos_right (by positivity), sub_nonneg]
    exact ⟨fun h2 => by exact_mod_cast h2, fun h2 => by exact_mod_cast h2⟩

theorem C2_waste_percent_is_unclamped_ratio_witness :
    (analyzeCPUWaste estC2 usageC2).WastePercent =
      (((estC2.CPU.MilliValue : ℚ) / 1000 - usageC2.CPUCoresUsed) /
        ((estC2.CPU.MilliValue : ℚ) / 1000)) * 100 :=
  (C2_waste_percent_is_unclamped_ratio estC2 usageC2).1
    (by norm_num [estC2, ResourceQuantity.MilliValue])

/-- **C3** (counterexample).  With zero configured replicas (and, e.g., an
average of 3 running replicas and a $10 estimate), `analyzeReplicaWaste`
computes `costPerReplica = 10/0 = +Inf` and `wastedCost = 0 × Inf = NaN`:
the replica-waste accumulation point is *not* clamped, contradicting the
claim for the explicitly included zero-replica input. -/
theorem C3_replica_wasted_cost_nan_at_zero_replicas :
    (analyzeReplicaWasteF 0 (.fin 3) (.fin 10)).WastedCost = EF.nan ∧
    ¬ (analyzeReplicaWasteF 0 (.fin 3) (.fin 10)).WastedCost.finNonneg := by
  constructor
  · norm_num [analyzeReplicaWasteF, EF.max2, EF.sub, EF.neg, EF.add, EF.div,
      EF.mul, EF.lt, EF.isNaN]
  · norm_num [analyzeReplicaWasteF, EF.max2, EF.sub, EF.neg, EF.add, EF.div,
      EF.mul, EF.lt, EF.isNaN, EF.finNonneg]

/-- **C5.**  Cost determinism: CPU = 2 cores (2000 m), memory = 4 Gi,
storage = 10 Gi, 3 replicas under `DefaultPricing` give exactly
$103.68 CPU + $51.84 memory + $3.00 storage = $158.52 total (exact
rationals, hence within the claim's ±$0.01; storage is multiplied by the
replica count). -/
theorem C5_cost_determinism :
    calculateMonthlyCost DefaultPricing 2000 (4 * 1024 * 1024 * 1024)
        (10 * 1024 * 1024 * 1024) 3 =
      (.fin (15852/100), ⟨.fin (10368/100), .fin (5184/100), .fin 3⟩) := by
  norm_num [calculateMonthlyCost, DefaultPricing, qClamp, nanInfClamp,
    EF.mul, EF.add, EF.lt, EF.isNaN, EF.isInf]

/-- **C8.**  `optimizeStatefulSet` produces exactly the result of the
Deployment path on the damped metrics the claim describes (CPU and memory
waste × 0.7, idle replicas ÷ 2, confidence × 0.8, storage waste
unchanged), for every configuration, resource spec and metrics input. -/
theorem C8_statefulset_is_deployment_on_damped_metrics
    (cfg : SafetyConfiguration) (specs : ResourceSpecs) (w : WasteMetrics) :
    optimizeStatefulSetCore cfg specs w =
      optimizeDeploymentCore cfg specs (claimDampedMetrics w) := by
  unfold optimizeStatefulSetCore optimizeDeploymentCore conservativeWasteMetrics
    claimDampedMetrics
  dsimp only
  rw [mul_comm w.CPUWastePercent (7/10), mul_comm w.MemoryWastePercent (7/10),
    mul_comm w.WasteConfidence (8/10)]

/-- **C9.**  Every unit whose estimated monthly cost is below the default
$1 `MinMonthlyCostForAnalysis` threshold gets no `WasteDetection` at all
from `analyzeUnitWaste` — with or without usage data. -/
theorem C9_low_cost_units_are_skipped (now : ℚ) (estimate : UnitCostEstimate)
    (usage : ActualUsageMetrics) (hasUsageData : Bool)
    (h : estimate.MonthlyCost < DefaultWasteThresholds.MinMonthlyCostForAnalysis) :
    analyzeUnitWaste DefaultWasteThresholds now estimate usage hasUsageData = none := by
  unfold analyzeUnitWaste
  rw [if_pos h]

theorem C9_low_cost_units_are_skipped_witness :
    estC9.MonthlyCost < DefaultWasteThresholds.MinMonthlyCostForAnalysis ∧
    analyzeUnitWaste DefaultWasteThresholds 0 estC9 usageZero false = none ∧
    analyzeUnitWaste DefaultWasteThresholds 0 estC9 usageC2 true = none :=
  ⟨by norm_num [estC9, DefaultWasteThresholds],
   C9_low_cost_units_are_skipped 0 estC9 usageZero false
     (by norm_num [estC9, DefaultWasteThresholds]),
   C9_low_cost_units_are_skipped 0 estC9 usageC2 true
     (by norm_num [estC9, DefaultWasteThresholds])⟩

/-- The severity loop of `calculateWasteScore` is a product over the
category list. -/
theorem foldl_mul_eq_prod (l : List WasteCategory) (a : ℚ) :
    l.foldl (fun m c => m * severityFactor c) a = a * (l.map severityFactor).prod := by
  induction l generalizing a with
  | nil => simp
  | cons c t ih =>
    simp only [List.foldl_cons, List.map_cons, List.prod_cons, ih, mul_assoc]

theorem ite_neg_clamp_eq_max (x : ℚ) : (if x < 0 then (0 : ℚ) else x) = max 0 x := by
  split_ifs with h
  · exact (max_eq_left h.le).symm
  · exact (max_eq_right (not_lt.mp h)).symm

theorem ite_cap_eq_min (x : ℚ) : (if 100 < x then (100 : ℚ) else x) = min 100 x := by
  split_ifs with h
  · exact (min_eq_left h.le).symm
  · exact (min_eq_right (not_lt.mp h)).symm

/-- **C4** (counterexample).  On a detection with two HIGH categories,
$100 estimated / $20 wasted and EXCELLENT data quality, the source
multiplies 1.5 *per category* (1.5 × 1.5 = 2.25) and scores 45, while the
claim's flat severity multiplier (1.5 if any HIGH) scores 30. -/
theorem C4_severity_multiplier_compounds :
    calculateWasteScore detC4 = 45 ∧ claimWasteScore detC4 = 30 ∧
    calculateWasteScore detC4 ≠ claimWasteScore detC4 := by
  have h1 : calculateWasteScore detC4 = 45 := by
    norm_num [calculateWasteScore, detC4, severityFactor, dataQualityMultiplier]
  have h2 : claimWasteScore detC4 = 30 := by
    simp +decide only [claimWasteScore, claimSeverityMultiplier, detC4,
      dataQualityMultiplier, List.any_cons, List.any_nil]
    norm_num [min_def, max_def]
  refine ⟨h1, h2, ?_⟩
  rw [h1, h2]
  norm_num

/-- **C4** (amended).  For positive estimated cost the waste score equals
`min(100, max(0, wasted/estimated) × 100 × Π_c severityFactor(c) ×
dataQualityMultiplier)`: the severity multiplier is the *product* of a
factor 1.5 per HIGH category and 1.2 per MEDIUM category (compounding
across categories), and the data-quality multiplier runs 1.0
(EXCELLENT), 0.9 (GOOD), 0.7 (FAIR), 0.5 (POOR). -/
theorem C4_waste_score_formula (d : WasteDetection)
    (h : 0 < d.EstimatedMonthlyCost) :
    calculateWasteScore d =
      min 100 (max 0 (d.WastedMonthlyCost / d.EstimatedMonthlyCost) * 100 *
        (d.WasteCategories.map severityFactor).prod *
        dataQualityMultiplier d.DataQuality) := by
  unfold calculateWasteScore
  rw [if_neg (ne_of_gt h)]
  dsimp only
  rw [foldl_mul_eq_prod, one_mul, ite_neg_clamp_eq_max, ite_cap_eq_min]

theorem C4_waste_score_formula_witness :
    calculateWasteScore detC4 =
      min 100 (max 0 (detC4.WastedMonthlyCost / detC4.EstimatedMonthlyCost) * 100 *
        (detC4.WasteCategories.map severityFactor).prod *
        dataQualityMultiplier detC4.DataQuality) :=
  C4_waste_score_formula detC4 (by norm_num [detC4])

/-- **C6.**  Under the default safety configuration, whenever
`optimizeReplicas` proposes a change for positive `(current, idle)`, the
proposed count is at least `MinReplicas = 1`, strictly below `current`,
and the reduction ratio is at most `MaxReplicaReduction = 0.5`. -/
theorem C6_replica_optimization_respects_bounds (current idle : ℤ)
    (hc : 0 < current) (_hi : 0 < idle) (r : ResourceOptimization)
    (hr : optimizeReplicas DefaultSafetyConfiguration current idle = some r) :
    1 ≤ r.OptimizedValue ∧ r.OptimizedValue < (current : ℚ) ∧
    ((current : ℚ) - r.OptimizedValue) / (current : ℚ) ≤ 1/2 := by
  unfold optimizeReplicas at hr
  simp only [DefaultSafetyConfiguration] at hr
  by_cases h1 : idle ≤ 0 ∨ current ≤ 1
  · rw [if_pos h1] at hr
    exact absurd hr (by simp)
  rw [if_neg h1] at hr
  push_neg at h1
  have hc2 : 2 ≤ current := h1.2
  have hcq : (0 : ℚ) < (current : ℚ) := by exact_mod_cast hc
  by_cases h2 : (1/2 : ℚ) <
      ((current - (if current - idle < 1 then 1 else current - idle) : ℤ) : ℚ) / (current : ℚ)
  · rw [if_pos h2] at hr
    have hk2 : ((⌊(current : ℚ) * (1/2)⌋ : ℤ) : ℚ) ≤ (current : ℚ) * (1/2) :=
      Int.floor_le _
    have hk1 : 1 ≤ ⌊(current : ℚ) * (1/2)⌋ := by
      rw [Int.le_floor]
      have : (2 : ℚ) ≤ (current : ℚ) := by exact_mod_cast hc2
      push_cast
      linarith
    have hk3 : ⌊(current : ℚ) * (1/2)⌋ ≤ current - 1 := by
      have h2c : (2 : ℚ) ≤ (current : ℚ) := by exact_mod_cast hc2
      have : ((⌊(current : ℚ) * (1/2)⌋ : ℤ) : ℚ) ≤ ((current - 1 : ℤ) : ℚ) := by
        push_cast
        linarith
      exact_mod_cast this
    rw [if_neg (by omega)] at hr
    obtain rfl : _ = r := Option.some.inj hr
    refine ⟨?_, ?_, ?_⟩ <;> dsimp only
    · have : (1 : ℤ) ≤ current - ⌊(current : ℚ) * (1/2)⌋ := by omega
      exact_mod_cast this
    · have : current - ⌊(current : ℚ) * (1/2)⌋ < current := by omega
      exact_mod_cast this
    · have hnum : (current : ℚ) - ((current - ⌊(current : ℚ) * (1/2)⌋ : ℤ) : ℚ) =
          ((⌊(current : ℚ) * (1/2)⌋ : ℤ) : ℚ) := by
        push_cast
        ring
      rw [hnum, div_le_iff₀ hcq]
      linarith
  · rw [if_neg h2] at hr
    by_cases h3 : current ≤ (if current - idle < 1 then 1 else current - idle)
    · rw [if_pos h3] at hr
      exact absurd hr (by simp)
    rw [if_neg h3] at hr
    obtain rfl : _ = r := Option.some.inj hr
    push_neg at h3
    have ho1 : (1 : ℤ) ≤ (if current - idle < 1 then 1 else current - idle) := by
      split_ifs <;> omega
    refine ⟨?_, ?_, ?_⟩ <;> dsimp only
    · exact_mod_cast ho1
    · exact_mod_cast h3
    · have hle : ((current - (if current - idle < 1 then 1 else current - idle) : ℤ) : ℚ) /
          (current : ℚ) ≤ 1/2 := not_lt.mp h2
      have hnum : (current : ℚ) -
          (((if current - idle < 1 then 1 else current - idle) : ℤ) : ℚ) =
          ((current - (if current - idle < 1 then 1 else current - idle) : ℤ) : ℚ) := by
        push_cast
        ring
      rw [hnum]
      exact hle

theorem C6_replica_optimization_respects_bounds_witness :
    1 ≤ ((2 : ℤ) : ℚ) ∧ ((2 : ℤ) : ℚ) < ((4 : ℤ) : ℚ) ∧
    (((4 : ℤ) : ℚ) - ((2 : ℤ) : ℚ)) / ((4 : ℤ) : ℚ) ≤ 1/2 := by
  have h := C6_replica_optimization_respects_bounds 4 3 (by norm_num) (by norm_num)
    { Ty := "replicas", OriginalValue := ((4 : ℤ) : ℚ), OptimizedValue := ((2 : ℤ) : ℚ),
      ReductionPercent := (((4 : ℤ) - 2 : ℤ) : ℚ) / ((4 : ℤ) : ℚ) * 100, Risk := "MEDIUM" }
    (by norm_num [optimizeReplicas, DefaultSafetyConfiguration])
  exact h

/-- **C7.**  Proportional redistribution with conservation: when some
container carries a positive baseline, `distributeOptimizedResource`
assigns every positively-weighted container
`round(total × wᵢ)` where `wᵢ = bᵢ / Σb` is its normalised share of the
pre-existing total (within ½ unit of `total × wᵢ`), leaves zero-baseline
containers untouched, and the assigned values sum to the optimized total
up to unit rounding (`N/2` half-units over `N` containers); when no
container carries a positive baseline, the total is split equally among
all containers. -/
theorem C7_redistribution_is_proportional_and_conserving (total : ℤ) (bs : List ℤ)
    (hnn : ∀ b ∈ bs, 0 ≤ b) (hne : bs ≠ []) :
    ((∃ b ∈ bs, 0 < b) →
      (distributeOptimizedResource total bs =
        bs.map (fun b : ℤ => if 0 < b then
          some (rhe ((total : ℚ) * ((b : ℚ) / (bs.sum : ℚ)))) else none)) ∧
      (∀ b ∈ bs, 0 < b →
        |((rhe ((total : ℚ) * ((b : ℚ) / (bs.sum : ℚ))) : ℤ) : ℚ) -
          (total : ℚ) * ((b : ℚ) / (bs.sum : ℚ))| ≤ 1/2) ∧
      |((assignedSum (distributeOptimizedResource total bs) : ℤ) : ℚ) - (total : ℚ)| ≤
        (bs.length : ℚ) / 2) ∧
    ((∀ b ∈ bs, b = 0) →
      distributeOptimizedResource total bs =
        bs.map (fun _ : ℤ => some (rhe ((total : ℚ) / (bs.length : ℚ))))) := by
  constructor
  · rintro ⟨b0, hb0mem, hb0pos⟩
    have hS : (bs.filter (fun b => decide (0 < b))).sum = bs.sum :=
      sum_filter_pos_of_nonneg bs hnn
    have hSpos : 0 < bs.sum := lt_of_lt_of_le hb0pos (List.single_le_sum hnn b0 hb0mem)
    have hSposQ : (0 : ℚ) < (bs.sum : ℚ) := by exact_mod_cast hSpos
    have hany : bs.any (fun b => decide (0 < b)) = true := by
      rw [List.any_eq_true]
      exact ⟨b0, hb0mem, by simpa using hb0pos⟩
    have hemp : ¬ (bs.isEmpty = true) := by
      simpa [List.isEmpty_iff] using hne
    have hmap : distributeOptimizedResource total bs =
        bs.map (fun b : ℤ => if 0 < b then
          some (rhe ((total : ℚ) * ((b : ℚ) / (bs.sum : ℚ)))) else none) := by
      unfold distributeOptimizedResource
      rw [if_neg hemp]
      dsimp only
      rw [if_pos hany]
      refine List.map_congr_left ?_
      intro b hb
      dsimp only
      unfold calculateContainerProportion
      dsimp only
      rw [hS, if_pos hSpos]
      by_cases hbpos : 0 < b
      · have hbq : (0 : ℚ) < (b : ℚ) := by exact_mod_cast hbpos
        rw [if_pos hbpos, if_pos (div_pos hbq hSposQ), if_pos hbpos]
      · rw [if_neg hbpos]
        have : ((0 : ℤ) : ℚ) / (bs.sum : ℚ) = 0 := by simp
        rw [this, if_neg (lt_irrefl 0), if_neg hbpos]
    refine ⟨hmap, fun b _ _ => rhe_close _, ?_⟩
    rw [hmap, assignedSum_map_ite]
    have hcomp : ((bs.filter (fun b => decide (0 < b))).map
        (fun b : ℤ => rhe ((total : ℚ) * ((b : ℚ) / (bs.sum : ℚ))))) =
        (((bs.filter (fun b => decide (0 < b))).map
          (fun b : ℤ => (total : ℚ) * ((b : ℚ) / (bs.sum : ℚ)))).map rhe) := by
      rw [List.map_map]
      rfl
    rw [hcomp]
    have hsum : (((bs.filter (fun b => decide (0 < b))).map
        (fun b : ℤ => (total : ℚ) * ((b : ℚ) / (bs.sum : ℚ)))).sum) = (total : ℚ) := by
      have hfun : (fun b : ℤ => (total : ℚ) * ((b : ℚ) / (bs.sum : ℚ))) =
          (fun b : ℤ => ((total : ℚ) / (bs.sum : ℚ)) * (b : ℚ)) := by
        funext b
        ring
      rw [hfun, sum_map_scaled, hS]
      exact div_mul_cancel₀ (total : ℚ) (ne_of_gt hSposQ)
    have hclose := sum_map_rhe_close ((bs.filter (fun b => decide (0 < b))).map
      (fun b : ℤ => (total : ℚ) * ((b : ℚ) / (bs.sum : ℚ))))
    rw [hsum] at hclose
    have hlen : ((((bs.filter (fun b => decide (0 < b))).map
        (fun b : ℤ => (total : ℚ) * ((b : ℚ) / (bs.sum : ℚ)))).length : ℚ)) ≤
        (bs.length : ℚ) := by
      rw [List.length_map]
      exact_mod_cast List.length_filter_le _ _
    calc |((((bs.filter (fun b => decide (0 < b))).map
          (fun b : ℤ => (total : ℚ) * ((b : ℚ) / (bs.sum : ℚ)))).map rhe).sum : ℚ) -
          (total : ℚ)| ≤ _ / 2 := hclose
      _ ≤ (bs.length : ℚ) / 2 := by linarith
  · intro hall
    have hany : bs.any (fun b => decide (0 < b)) = false := by
      rw [Bool.eq_false_iff]
      intro hx
      rw [List.any_eq_true] at hx
      obtain ⟨b, hb, hbp⟩ := hx
      have hb0 := hall b hb
      subst hb0
      simpa using hbp
    have hemp : ¬ (bs.isEmpty = true) := by
      simpa [List.isEmpty_iff] using hne
    unfold distributeOptimizedResource
    rw [if_neg hemp]
    dsimp only
    rw [hany]
    rw [if_neg (by simp)]

theorem C7_redistribution_is_proportional_and_conserving_witness :
    distributeOptimizedResource 300 [100, 200] =
      [100, 200].map (fun b : ℤ => if 0 < b then
        some (rhe ((300 : ℚ) * ((b : ℚ) / (([100, 200] : List ℤ).sum : ℚ)))) else none) ∧
    |((assignedSum (distributeOptimizedResource 300 [100, 200]) : ℤ) : ℚ) - (300 : ℚ)| ≤
      ((([100, 200] : List ℤ).length : ℚ)) / 2 := by
  have h := (C7_redistribution_is_proportional_and_conserving 300 [100, 200]
    (by decide) (by decide)).1 ⟨100, by decide, by decide⟩
  exact ⟨h.1, h.2.2⟩

theorem Store.Wf.bound {st : Store} (h : st.Wf) :
    ∀ x v, st.mem x = some v → x < st.next := by
  intro x v hx
  by_contra hc
  push_neg at hc
  rw [h x hc] at hx
  cases hx

/-- Frame: a derivation all of whose addresses are below `n` survives any
heap change at or above `n`. -/
theorem HasTree.frame {m1 m2 : ℕ → Option Node} {n : ℕ} {a : ℕ} {t : Tree}
    (h : HasTree m1 a t) (hbound : ∀ x v, m1 x = some v → x < n)
    (hag : lowAgree n m1 m2) : HasTree m2 a t := by
  induction h with
  | prim hmem =>
      exact .prim (by rw [hag _ (hbound _ _ hmem)]; exact hmem)
  | mapn hmem hlen hkeys _ ih =>
      exact .mapn (by rw [hag _ (hbound _ _ hmem)]; exact hmem) hlen hkeys ih
  | arrn hmem hlen _ ih =>
      exact .arrn (by rw [hag _ (hbound _ _ hmem)]; exact hmem) hlen ih

theorem lowAgree_trans {n₀ n1 : ℕ} {m0 m1 m2 : ℕ → Option Node}
    (h1 : lowAgree n₀ m0 m1) (h2 : lowAgree n1 m1 m2) (h : n₀ ≤ n1) :
    lowAgree n₀ m0 m2 := fun x hx => (h2 x (lt_of_lt_of_le hx h)).trans (h1 x hx)

theorem ClosedAbove.compose {n₀ : ℕ} {st1 st2 : Store}
    (h1 : ClosedAbove n₀ st1) (h12 : n₀ ≤ st1.next)
    (hag : lowAgree st1.next st1.mem st2.mem) (h2 : ClosedAbove st1.next st2) :
    ClosedAbove n₀ st2 := by
  intro a node ha hmem c hc
  by_cases hlt : a < st1.next
  · rw [hag a hlt] at hmem
    exact h1 a node ha hmem c hc
  · push_neg at hlt
    exact le_trans h12 (h2 a node hlt hmem c hc)

theorem alloc_Wf {st : Store} {n : Node} (h : st.Wf) : (st.alloc n).1.Wf := by
  intro x hx
  unfold Store.alloc at hx ⊢
  dsimp only at hx ⊢
  rw [if_neg (by omega)]
  exact h x (by omega)

theorem alloc_lowAgree {st : Store} {n : Node} {m : ℕ} (hm : m ≤ st.next) :
    lowAgree m st.mem (st.alloc n).1.mem := by
  intro x hx
  unfold Store.alloc
  dsimp only
  rw [if_neg (by omega)]

theorem alloc_mem_new {st : Store} {n : Node} :
    (st.alloc n).1.mem (st.alloc n).2 = some n := by
  unfold Store.alloc
  dsimp only
  rw [if_pos rfl]

theorem write_Wf {st : Store} {a : ℕ} {n : Node} (h : st.Wf) (ha : a < st.next) :
    (st.write a n).Wf := by
  intro x hx
  unfold Store.write at hx ⊢
  dsimp only at hx ⊢
  rw [if_neg (by omega)]
  exact h x hx

theorem write_lowAgree {st : Store} {a : ℕ} {n : Node} {m : ℕ} (hm : m ≤ a) :
    lowAgree m st.mem (st.write a n).mem := by
  intro x hx
  unfold Store.write
  dsimp only
  rw [if_neg (by omega)]

theorem lookupField_mem {fields : List (String × ℕ)} {k : String} {c : ℕ}
    (h : lookupField fields k = some c) : c ∈ fields.map (·.2) := by
  induction fields with
  | nil => cases h
  | cons kv rest ih =>
      unfold lookupField at h
      by_cases hk : kv.1 = k
      · rw [if_pos hk] at h
        simp [← Option.some.inj h]
      · rw [if_neg hk] at h
        simp [ih h]

theorem setField_children {fields : List (String × ℕ)} {k : String} {p c : ℕ}
    (h : c ∈ (setField fields k p).map (·.2)) :
    c ∈ fields.map (·.2) ∨ c = p := by
  induction fields with
  | nil =>
      unfold setField at h
      simp at h
      exact Or.inr h
  | cons kv rest ih =>
      unfold setField at h
      by_cases hk : kv.1 = k
      · rw [if_pos hk] at h
        simp at h
        rcases h with h | h
        · exact Or.inr h
        · exact Or.inl (by simp [h])
      · rw [if_neg hk] at h
        simp at h
        rcases h with h | h
        · exact Or.inl (by simp [h])
        · rcases ih (by simpa using h) with h' | h'
          · exact Or.inl (by simp at h' ⊢; exact Or.inr h')
          · exact Or.inr h'

theorem mapLookup_high {n₀ : ℕ} {st : Store} {a c : ℕ} {k : String}
    (hca : ClosedAbove n₀ st) (ha : n₀ ≤ a) (h : mapLookup st a k = some c) :
    n₀ ≤ c := by
  unfold mapLookup at h
  cases hmem : st.mem a with
  | none => rw [hmem] at h; cases h
  | some node =>
      rw [hmem] at h
      cases node with
      | prim v => cases h
      | mapn fields =>
          exact hca a (.mapn fields) ha hmem c (lookupField_mem h)
      | arrn elems => cases h

theorem EditOk.refl {n₀ : ℕ} {st : Store} (hwf : st.Wf) (hca : ClosedAbove n₀ st) :
    EditOk n₀ st st := ⟨hwf, hca, fun _ _ => Eq.refl _, le_refl _⟩

theorem EditOk.trans {n₀ : ℕ} {st1 st2 st3 : Store} (h1 : EditOk n₀ st1 st2)
    (h2 : EditOk n₀ st2 st3) : EditOk n₀ st1 st3 :=
  ⟨h2.1, h2.2.1, fun x hx => (h2.2.2.1 x hx).trans (h1.2.2.1 x hx),
   le_trans h1.2.2.2 h2.2.2.2⟩

theorem write_EditOk {n₀ : ℕ} {st : Store} {a : ℕ} {n : Node}
    (hwf : st.Wf) (hca : ClosedAbove n₀ st) (ha : n₀ ≤ a) (han : a < st.next)
    (hch : ∀ c ∈ n.children, n₀ ≤ c) : EditOk n₀ st (st.write a n) := by
  refine ⟨write_Wf hwf han, ?_, write_lowAgree ha, le_refl _⟩
  intro b node hb hmem c hc
  unfold Store.write at hmem
  dsimp only at hmem
  by_cases hba : b = a
  · rw [if_pos hba] at hmem
    obtain rfl := Option.some.inj hmem
    exact hch c hc
  · rw [if_neg hba] at hmem
    exact hca b node hb hmem c hc

theorem alloc_EditOk {n₀ : ℕ} {st : Store} {n : Node}
    (hwf : st.Wf) (hca : ClosedAbove n₀ st) (hn : n₀ ≤ st.next)
    (hch : ∀ c ∈ n.children, n₀ ≤ c) : EditOk n₀ st (st.alloc n).1 := by
  refine ⟨alloc_Wf hwf, ?_, alloc_lowAgree hn, by unfold Store.alloc; dsimp only; omega⟩
  intro b node hb hmem c hc
  unfold Store.alloc at hmem
  dsimp only at hmem
  by_cases hba : b = st.next
  · rw [if_pos hba] at hmem
    obtain rfl := Option.some.inj hmem
    exact hch c hc
  · rw [if_neg hba] at hmem
    exact hca b node hb hmem c hc

theorem updateSubMap_EditOk {n₀ : ℕ} {st : Store} {resAddr : ℕ}
    {rf : List (String × ℕ)} {k1 rt val : String}
    (hwf : st.Wf) (hca : ClosedAbove n₀ st) (hn : n₀ ≤ st.next)
    (hres : n₀ ≤ resAddr) (hmem : st.mem resAddr = some (.mapn rf)) :
    EditOk n₀ st (updateSubMap st resAddr rf k1 rt val) := by
  have hresLt : resAddr < st.next := hwf.bound _ _ hmem
  have h1 : EditOk n₀ st (st.alloc (.prim val)).1 :=
    alloc_EditOk hwf hca hn (by simp [Node.children])
  have hcreate : EditOk n₀ st
      (((st.alloc (.prim val)).1.alloc
          (.mapn [(rt, (st.alloc (.prim val)).2)])).1.write resAddr
        (.mapn (setField rf k1
          ((st.alloc (.prim val)).1.alloc
            (.mapn [(rt, (st.alloc (.prim val)).2)])).2))) := by
    have h2 : EditOk n₀ (st.alloc (.prim val)).1
        ((st.alloc (.prim val)).1.alloc (.mapn [(rt, (st.alloc (.prim val)).2)])).1 :=
      alloc_EditOk h1.1 h1.2.1 (le_trans hn h1.2.2.2) (by
        intro x hx
        simp [Node.children] at hx
        subst hx
        show n₀ ≤ (st.alloc (.prim val)).2
        simpa [Store.alloc] using hn)
    refine (h1.trans h2).trans (write_EditOk h2.1 h2.2.1 hres
      (lt_of_lt_of_le hresLt (h1.trans h2).2.2.2) ?_)
    intro x hx
    rcases setField_children (by simpa [Node.children] using hx) with h | h
    · exact hca resAddr _ hres hmem x (by simpa [Node.children] using h)
    · subst h
      show n₀ ≤ ((st.alloc (.prim val)).1.alloc _).2
      simp [Store.alloc]
      omega
  unfold updateSubMap
  cases hl : lookupField rf k1 with
  | none => ((try dsimp only); exact hcreate)
  | some subAddr =>
    dsimp only
    cases hsm : st.mem subAddr with
    | none => ((try rw [hsm]); (try dsimp only); exact hcreate)
    | some snode =>
      cases snode with
      | prim v2 => ((try rw [hsm]); (try dsimp only); exact hcreate)
      | arrn es => ((try rw [hsm]); (try dsimp only); exact hcreate)
      | mapn qf =>
          (try rw [hsm]); (try dsimp only)
          have hsub : n₀ ≤ subAddr :=
            hca resAddr _ hres hmem subAddr
              (by simpa [Node.children] using lookupField_mem hl)
          have hsubLt : subAddr < st.next := hwf.bound _ _ hsm
          refine h1.trans (write_EditOk h1.1 h1.2.1 hsub
            (lt_of_lt_of_le hsubLt h1.2.2.2) ?_)
          intro x hx
          rcases setField_children (by simpa [Node.children] using hx) with h | h
          · exact hca subAddr _ hsub hsm x (by simpa [Node.children] using h)
          · subst h
            show n₀ ≤ (st.alloc (.prim val)).2
            simpa [Store.alloc] using hn

theorem setContainerResourceSafelyH_EditOk {n₀ : ℕ} {st : Store} {c : ℕ}
    {rt reqVal limVal : String}
    (hwf : st.Wf) (hca : ClosedAbove n₀ st) (hn : n₀ ≤ st.next) (hcAddr : n₀ ≤ c) :
    EditOk n₀ st (setContainerResourceSafelyH st c rt reqVal limVal) := by
  unfold setContainerResourceSafelyH
  cases hcm : st.mem c with
  | none => ((try dsimp only); exact EditOk.refl hwf hca)
  | some cnode =>
    cases cnode with
    | prim v => ((try dsimp only); exact EditOk.refl hwf hca)
    | arrn es => ((try dsimp only); exact EditOk.refl hwf hca)
    | mapn cf =>
      (try dsimp only)
      cases hres : lookupField cf "resources" with
      | some resAddr =>
        (try rw [hres]); (try dsimp only)
        have hresA : n₀ ≤ resAddr :=
          hca c _ hcAddr hcm resAddr
            (by simpa [Node.children] using lookupField_mem hres)
        cases hrm : st.mem resAddr with
        | none => ((try rw [hrm]); (try dsimp only); exact EditOk.refl hwf hca)
        | some rnode =>
          cases rnode with
          | prim v => ((try rw [hrm]); (try dsimp only); exact EditOk.refl hwf hca)
          | arrn es => ((try rw [hrm]); (try dsimp only); exact EditOk.refl hwf hca)
          | mapn rf =>
            (try rw [hrm]); (try dsimp only)
            have h1 : EditOk n₀ st (updateSubMap st resAddr rf "requests" rt reqVal) :=
              updateSubMap_EditOk hwf hca hn hresA hrm
            cases hrm1 : (updateSubMap st resAddr rf "requests" rt reqVal).mem resAddr with
            | none => ((try rw [hrm1]); (try dsimp only); exact h1)
            | some rnode1 =>
              cases rnode1 with
              | prim v => ((try rw [hrm1]); (try dsimp only); exact h1)
              | arrn es => ((try rw [hrm1]); (try dsimp only); exact h1)
              | mapn rf1 =>
                (try rw [hrm1]); (try dsimp only)
                exact h1.trans
                  (updateSubMap_EditOk h1.1 h1.2.1 (le_trans hn h1.2.2.2) hresA hrm1)
      | none =>
        (try rw [hres]); (try dsimp only)
        have hcLt : c < st.next := hwf.bound _ _ hcm
        have h1 : EditOk n₀ st (st.alloc (.prim reqVal)).1 :=
          alloc_EditOk hwf hca hn (by simp [Node.children])
        have h2 := alloc_EditOk (n := .mapn [(rt, (st.alloc (.prim reqVal)).2)])
          h1.1 h1.2.1 (le_trans hn h1.2.2.2)
          (by intro x hx; simp [Node.children, Store.alloc] at hx; omega)
        have h12 := h1.trans h2
        have h3 := alloc_EditOk (n := .prim limVal) h12.1 h12.2.1 (le_trans hn h12.2.2.2)
          (by simp [Node.children])
        have h13 := h12.trans h3
        have h4 := alloc_EditOk
          (n := .mapn [(rt, (((st.alloc (.prim reqVal)).1.alloc
            (.mapn [(rt, (st.alloc (.prim reqVal)).2)])).1.alloc (.prim limVal)).2)])
          h13.1 h13.2.1 (le_trans hn h13.2.2.2)
          (by intro x hx; simp [Node.children, Store.alloc] at hx; omega)
        have h14 := h13.trans h4
        have h5 := alloc_EditOk
          (n := .mapn [("requests", ((st.alloc (.prim reqVal)).1.alloc
              (.mapn [(rt, (st.alloc (.prim reqVal)).2)])).2),
            ("limits", ((((st.alloc (.prim reqVal)).1.alloc
              (.mapn [(rt, (st.alloc (.prim reqVal)).2)])).1.alloc (.prim limVal)).1.alloc
              (.mapn [(rt, (((st.alloc (.prim reqVal)).1.alloc
                (.mapn [(rt, (st.alloc (.prim reqVal)).2)])).1.alloc (.prim limVal)).2)])).2)])
          h14.1 h14.2.1 (le_trans hn h14.2.2.2)
          (by intro x hx; simp [Node.children, Store.alloc] at hx; rcases hx with hx | hx <;> omega)
        have h15 := h14.trans h5
        refine h15.trans (write_EditOk h15.1 h15.2.1 hcAddr
          (lt_of_lt_of_le hcLt h15.2.2.2) ?_)
        intro x hx
        rcases setField_children (by simpa [Node.children] using hx) with h | h
        · exact hca c _ hcAddr hcm x (by simpa [Node.children] using h)
        · subst h
          simp [Store.alloc]
          omega

theorem applyReplicaOptimizationH_EditOk {n₀ : ℕ} {st : Store} {root : ℕ} {v : String}
    (hwf : st.Wf) (hca : ClosedAbove n₀ st) (hn : n₀ ≤ st.next) (hroot : n₀ ≤ root) :
    EditOk n₀ st (applyReplicaOptimizationH st root v) := by
  unfold applyReplicaOptimizationH
  cases h1 : mapLookup st root "spec" with
  | none => ((try dsimp only); exact EditOk.refl hwf hca)
  | some specAddr =>
    (try dsimp only)
    have hs : n₀ ≤ specAddr := mapLookup_high hca hroot h1
    cases h2 : st.mem specAddr with
    | none => ((try dsimp only); exact EditOk.refl hwf hca)
    | some node =>
      cases node with
      | prim v2 => ((try dsimp only); exact EditOk.refl hwf hca)
      | arrn es => ((try dsimp only); exact EditOk.refl hwf hca)
      | mapn fields =>
        dsimp only
        have hsLt : specAddr < st.next := hwf.bound _ _ h2
        have ha1 : EditOk n₀ st (st.alloc (.prim v)).1 :=
          alloc_EditOk hwf hca hn (by simp [Node.children])
        refine ha1.trans (write_EditOk ha1.1 ha1.2.1 hs
          (lt_of_lt_of_le hsLt ha1.2.2.2) ?_)
        intro x hx
        rcases setField_children (by simpa [Node.children] using hx) with h | h
        · exact hca specAddr _ hs h2 x (by simpa [Node.children] using h)
        · subst h
          show n₀ ≤ (st.alloc (.prim v)).2
          simpa [Store.alloc] using hn

theorem applyToContainers_EditOk {n₀ : ℕ} {cs : List ℕ} :
    ∀ {vals : List (Option (String × String))} {st : Store} {rt : String},
    st.Wf → ClosedAbove n₀ st → n₀ ≤ st.next → (∀ c ∈ cs, n₀ ≤ c) →
    EditOk n₀ st (applyToContainers st cs vals rt) := by
  induction cs with
  | nil =>
      intro vals st rt hwf hca hn hcs
      cases vals <;> (unfold applyToContainers; exact EditOk.refl hwf hca)
  | cons c cs' ih =>
      intro vals st rt hwf hca hn hcs
      cases vals with
      | nil =>
          unfold applyToContainers
          exact EditOk.refl hwf hca
      | cons v vals' =>
          unfold applyToContainers
          dsimp only
          have hstep : EditOk n₀ st
              (match v with
               | some rv => setContainerResourceSafelyH st c rt rv.1 rv.2
               | none => st) := by
            cases v with
            | none => ((try dsimp only); exact EditOk.refl hwf hca)
            | some rv =>
                exact setContainerResourceSafelyH_EditOk hwf hca hn (hcs c (by simp))
          exact hstep.trans (ih hstep.1 hstep.2.1 (le_trans hn hstep.2.2.2)
            (fun x hx => hcs x (by simp [hx])))

theorem applyResourceOptimizationH_EditOk {n₀ : ℕ} {st : Store} {root : ℕ}
    {rt : String} {vals : List (Option (String × String))}
    (hwf : st.Wf) (hca : ClosedAbove n₀ st) (hn : n₀ ≤ st.next) (hroot : n₀ ≤ root) :
    EditOk n₀ st (applyResourceOptimizationH st root rt vals) := by
  unfold applyResourceOptimizationH
  cases h1 : mapLookup st root "spec" with
  | none => ((try dsimp only); exact EditOk.refl hwf hca)
  | some specA =>
    (try dsimp only)
    have hs1 : n₀ ≤ specA := mapLookup_high hca hroot h1
    cases h2 : mapLookup st specA "template" with
    | none => ((try dsimp only); exact EditOk.refl hwf hca)
    | some tmplA =>
      (try dsimp only)
      have hs2 : n₀ ≤ tmplA := mapLookup_high hca hs1 h2
      cases h3 : mapLookup st tmplA "spec" with
      | none => ((try dsimp only); exact EditOk.refl hwf hca)
      | some podA =>
        (try dsimp only)
        have hs3 : n₀ ≤ podA := mapLookup_high hca hs2 h3
        cases h4 : mapLookup st podA "containers" with
        | none => ((try dsimp only); exact EditOk.refl hwf hca)
        | some contA =>
          (try dsimp only)
          have hs4 : n₀ ≤ contA := mapLookup_high hca hs3 h4
          cases h5 : st.mem contA with
          | none => ((try dsimp only); exact EditOk.refl hwf hca)
          | some node =>
            cases node with
            | prim v => ((try dsimp only); exact EditOk.refl hwf hca)
            | mapn fields => ((try dsimp only); exact EditOk.refl hwf hca)
            | arrn cs =>
                dsimp only
                exact applyToContainers_EditOk hwf hca hn
                  (fun x hx => hca contA _ hs4 h5 x (by simpa [Node.children] using hx))

theorem ClosedAbove_of_Wf {st : Store} (hwf : st.Wf) : ClosedAbove st.next st := by
  intro a node ha hmem
  rw [hwf a ha] at hmem
  cases hmem

theorem CopyOk.here {st : Store} (hwf : st.Wf) : CopyOk st st :=
  EditOk.refl hwf (ClosedAbove_of_Wf hwf)

theorem CopyOk.chain {st1 st2 st3 : Store} (h1 : CopyOk st1 st2)
    (h2 : CopyOk st2 st3) : CopyOk st1 st3 :=
  ⟨h2.1,
   ClosedAbove.compose h1.2.1 h1.2.2.2 h2.2.2.1 h2.2.1,
   lowAgree_trans h1.2.2.1 h2.2.2.1 h1.2.2.2,
   le_trans h1.2.2.2 h2.2.2.2⟩

/-- Allocating a node whose children already lie in the copied region
extends a `CopyOk` step. -/
theorem CopyOk.alloc_step {st stB : Store} {n : Node} (h : CopyOk st stB)
    (hch : ∀ c ∈ n.children, st.next ≤ c) : CopyOk st (stB.alloc n).1 := by
  refine ⟨alloc_Wf h.1, ?_,
    lowAgree_trans h.2.2.1 (alloc_lowAgree (le_refl _)) h.2.2.2,
    le_trans h.2.2.2 (by unfold Store.alloc; dsimp only; omega)⟩
  intro b node hb hmem c hc
  unfold Store.alloc at hmem
  dsimp only at hmem
  by_cases hbn : b = stB.next
  · rw [if_pos hbn] at hmem
    obtain rfl := Option.some.inj hmem
    exact hch c hc
  · rw [if_neg hbn] at hmem
    exact h.2.1 b node hb hmem c hc

/-- The inner fold of `copyValue` on a map node: threading the store
through the per-field copies preserves `CopyOk`, and the accumulated
assoc-list extends by one fresh, correctly-keyed copy per field. -/
theorem copyValue_foldMap {fuel : ℕ} {st0 : Store}
    (ih : ∀ (st : Store) (a : ℕ) (t : Tree) (stx : Store) (ax : ℕ),
      st.Wf → HasTree st.mem a t → copyValue fuel st a = some (stx, ax) →
      CopyOk st stx ∧ st.next ≤ ax ∧ ax < stx.next ∧ HasTree stx.mem ax t)
    (hwf0 : st0.Wf) :
    ∀ (kvs : List (String × ℕ)) (tks : List (String × Tree)) (stA : Store)
      (accL : List (String × ℕ)) (out : Store × List (String × ℕ)),
      kvs.length = tks.length →
      (∀ i (h1 : i < kvs.length) (h2 : i < tks.length),
        HasTree st0.mem (kvs.get ⟨i, h1⟩).2 (tks.get ⟨i, h2⟩).2) →
      CopyOk st0 stA →
      kvs.foldlM (fun (acc : Store × List (String × ℕ)) (kv : String × ℕ) => do
          let r ← copyValue fuel acc.1 kv.2
          pure (r.1, acc.2 ++ [(kv.1, r.2)])) (stA, accL) = some out →
      CopyOk stA out.1 ∧
      ∃ news : List (String × ℕ), out.2 = accL ++ news ∧
        news.length = kvs.length ∧
        (∀ i (h1 : i < news.length) (h2 : i < kvs.length),
          (news.get ⟨i, h1⟩).1 = (kvs.get ⟨i, h2⟩).1) ∧
        (∀ i (h1 : i < news.length),
          stA.next ≤ (news.get ⟨i, h1⟩).2 ∧ (news.get ⟨i, h1⟩).2 < out.1.next) ∧
        (∀ i (h1 : i < news.length) (h2 : i < tks.length),
          HasTree out.1.mem (news.get ⟨i, h1⟩).2 (tks.get ⟨i, h2⟩).2) := by
  intro kvs
  induction kvs with
  | nil =>
      intro tks stA accL out hlen hch hA hfold
      simp only [List.foldlM_nil, Option.pure_def, Option.some.injEq] at hfold
      obtain rfl := hfold
      refine ⟨CopyOk.here hA.1, [], by simp, rfl, ?_, ?_, ?_⟩ <;>
        (intro i h1; exact absurd h1 (by simp))
  | cons kv kvs' ihl =>
      intro tks stA accL out hlen hch hA hfold
      cases tks with
      | nil => exact absurd hlen (by simp)
      | cons tk tks' =>
          rw [List.foldlM_cons] at hfold
          dsimp only at hfold
          cases hc : copyValue fuel stA kv.2 with
          | none =>
              rw [hc] at hfold
              simp only [Option.bind_eq_bind, Option.none_bind] at hfold
              cases hfold
          | some r =>
              rw [hc] at hfold
              simp only [Option.bind_eq_bind, Option.some_bind, Option.pure_def] at hfold
              have hstep := ih stA kv.2 tk.2 r.1 r.2 hA.1
                (HasTree.frame (hch 0 (by simp) (by simp)) hwf0.bound hA.2.2.1)
                (by rw [hc])
              have hA1 : CopyOk st0 r.1 := hA.chain hstep.1
              have hrec := ihl tks' r.1 (accL ++ [(kv.1, r.2)]) out
                (by simpa using hlen)
                (fun i h1 h2 =>
                  hch (i + 1) (Nat.succ_lt_succ h1) (Nat.succ_lt_succ h2))
                hA1 hfold
              obtain ⟨hBO, news', hout2, hlen', hkeys', hbounds', htrees'⟩ := hrec
              refine ⟨hstep.1.chain hBO, (kv.1, r.2) :: news', ?_, ?_, ?_, ?_, ?_⟩
              · rw [hout2]; simp
              · simpa using hlen'
              · intro i h1 h2
                cases i with
                | zero => rfl
                | succ i =>
                    exact hkeys' i (Nat.lt_of_succ_lt_succ h1)
                      (Nat.lt_of_succ_lt_succ h2)
              · intro i h1
                cases i with
                | zero =>
                    exact ⟨hstep.2.1, lt_of_lt_of_le hstep.2.2.1 hBO.2.2.2⟩
                | succ i =>
                    obtain ⟨hb1, hb2⟩ := hbounds' i (Nat.lt_of_succ_lt_succ h1)
                    exact ⟨le_trans hstep.1.2.2.2 hb1, hb2⟩
              · intro i h1 h2
                cases i with
                | zero =>
                    exact HasTree.frame hstep.2.2.2 hstep.1.1.bound hBO.2.2.1
                | succ i =>
                    exact htrees' i (Nat.lt_of_succ_lt_succ h1)
                      (Nat.lt_of_succ_lt_succ h2)

/-- The inner fold of `copyValue` on an array node. -/
theorem copyValue_foldArr {fuel : ℕ} {st0 : Store}
    (ih : ∀ (st : Store) (a : ℕ) (t : Tree) (stx : Store) (ax : ℕ),
      st.Wf → HasTree st.mem a t → copyValue fuel st a = some (stx, ax) →
      CopyOk st stx ∧ st.next ≤ ax ∧ ax < stx.next ∧ HasTree stx.mem ax t)
    (hwf0 : st0.Wf) :
    ∀ (es : List ℕ) (ts : List Tree) (stA : Store)
      (accL : List ℕ) (out : Store × List ℕ),
      es.length = ts.length →
      (∀ i (h1 : i < es.length) (h2 : i < ts.length),
        HasTree st0.mem (es.get ⟨i, h1⟩) (ts.get ⟨i, h2⟩)) →
      CopyOk st0 stA →
      es.foldlM (fun (acc : Store × List ℕ) (e : ℕ) => do
          let r ← copyValue fuel acc.1 e
          pure (r.1, acc.2 ++ [r.2])) (stA, accL) = some out →
      CopyOk stA out.1 ∧
      ∃ news : List ℕ, out.2 = accL ++ news ∧
        news.length = es.length ∧
        (∀ i (h1 : i < news.length),
          stA.next ≤ news.get ⟨i, h1⟩ ∧ news.get ⟨i, h1⟩ < out.1.next) ∧
        (∀ i (h1 : i < news.length) (h2 : i < ts.length),
          HasTree out.1.mem (news.get ⟨i, h1⟩) (ts.get ⟨i, h2⟩)) := by
  intro es
  induction es with
  | nil =>
      intro ts stA accL out hlen hch hA hfold
      simp only [List.foldlM_nil, Option.pure_def, Option.some.injEq] at hfold
      obtain rfl := hfold
      refine ⟨CopyOk.here hA.1, [], by simp, rfl, ?_, ?_⟩ <;>
        (intro i h1; exact absurd h1 (by simp))
  | cons e es' ihl =>
      intro ts stA accL out hlen hch hA hfold
      cases ts with
      | nil => exact absurd hlen (by simp)
      | cons t ts' =>
          rw [List.foldlM_cons] at hfold
          dsimp only at hfold
          cases hc : copyValue fuel stA e with
          | none =>
              rw [hc] at hfold
              simp only [Option.bind_eq_bind, Option.none_bind] at hfold
              cases hfold
          | some r =>
              rw [hc] at hfold
              simp only [Option.bind_eq_bind, Option.some_bind, Option.pure_def] at hfold
              have hstep := ih stA e t r.1 r.2 hA.1
                (HasTree.frame (hch 0 (by simp) (by simp)) hwf0.bound hA.2.2.1)
                (by rw [hc])
              have hA1 : CopyOk st0 r.1 := hA.chain hstep.1
              have hrec := ihl ts' r.1 (accL ++ [r.2]) out
                (by simpa using hlen)
                (fun i h1 h2 =>
                  hch (i + 1) (Nat.succ_lt_succ h1) (Nat.succ_lt_succ h2))
                hA1 hfold
              obtain ⟨hBO, news', hout2, hlen', hbounds', htrees'⟩ := hrec
              refine ⟨hstep.1.chain hBO, r.2 :: news', ?_, ?_, ?_, ?_⟩
              · rw [hout2]; simp
              · simpa using hlen'
              · intro i h1
                cases i with
                | zero =>
                    exact ⟨hstep.2.1, lt_of_lt_of_le hstep.2.2.1 hBO.2.2.2⟩
                | succ i =>
                    obtain ⟨hb1, hb2⟩ := hbounds' i (Nat.lt_of_succ_lt_succ h1)
                    exact ⟨le_trans hstep.1.2.2.2 hb1, hb2⟩
              · intro i h1 h2
                cases i with
                | zero =>
                    exact HasTree.frame hstep.2.2.2 hstep.1.1.bound hBO.2.2.1
                | succ i =>
                    exact htrees' i (Nat.lt_of_succ_lt_succ h1)
                      (Nat.lt_of_succ_lt_succ h2)

/-- `copyValue` correctness: on a heap region denoting a tree, a successful
copy leaves everything below the old allocator mark untouched, returns a
fresh root address, and the copy denotes the same tree. -/
theorem copyValue_spec :
    ∀ (fuel : ℕ) (st : Store) (a : ℕ) (t : Tree) (stx : Store) (ax : ℕ),
      st.Wf → HasTree st.mem a t → copyValue fuel st a = some (stx, ax) →
      CopyOk st stx ∧ st.next ≤ ax ∧ ax < stx.next ∧ HasTree stx.mem ax t := by
  intro fuel
  induction fuel with
  | zero =>
      intro st a t stx ax hwf ht hcopy
      exact absurd hcopy (by simp [copyValue])
  | succ fuel ihf =>
      intro st a t stx ax hwf ht hcopy
      unfold copyValue at hcopy
      cases ht with
      | prim hmem =>
          rw [hmem] at hcopy
          dsimp only at hcopy
          obtain ⟨rfl, rfl⟩ := Prod.ext_iff.mp (Option.some.inj hcopy)
          refine ⟨(CopyOk.here hwf).alloc_step (by simp [Node.children]), le_refl _,
            Nat.lt_succ_self _, .prim alloc_mem_new⟩
      | mapn hmem hlen hkeys hts =>
          rename_i fields ts
          rw [hmem] at hcopy
          dsimp only at hcopy
          obtain ⟨acc, hfold, hmap⟩ := Option.map_eq_some'.mp hcopy
          obtain ⟨rfl, rfl⟩ := Prod.ext_iff.mp hmap
          obtain ⟨hAB, news, hacc2, hlenN, hkeysN, hboundsN, htreesN⟩ :=
            copyValue_foldMap ihf hwf fields ts st [] acc hlen hts
              (CopyOk.here hwf) hfold
          have hacc2' : acc.2 = news := by simpa using hacc2
          rw [hacc2']
          refine ⟨hAB.alloc_step ?_, hAB.2.2.2, Nat.lt_succ_self _, ?_⟩
          · intro c hc
            simp only [Node.children, List.mem_map] at hc
            obtain ⟨p, hp, rfl⟩ := hc
            obtain ⟨⟨i, hi⟩, rfl⟩ := List.mem_iff_get.mp hp
            exact (hboundsN i hi).1
          · refine HasTree.mapn alloc_mem_new (hlenN.trans hlen) ?_ ?_
            · intro i h1 h2
              exact (hkeysN i h1 (hlenN ▸ h1)).trans (hkeys i (hlenN ▸ h1) h2)
            · intro i h1 h2
              exact HasTree.frame (htreesN i h1 h2) hAB.1.bound
                (alloc_lowAgree (le_refl _))
      | arrn hmem hlen hts =>
          rename_i elems ts
          rw [hmem] at hcopy
          dsimp only at hcopy
          obtain ⟨acc, hfold, hmap⟩ := Option.map_eq_some'.mp hcopy
          obtain ⟨rfl, rfl⟩ := Prod.ext_iff.mp hmap
          obtain ⟨hAB, news, hacc2, hlenN, hboundsN, htreesN⟩ :=
            copyValue_foldArr ihf hwf elems ts st [] acc hlen hts
              (CopyOk.here hwf) hfold
          have hacc2' : acc.2 = news := by simpa using hacc2
          rw [hacc2']
          refine ⟨hAB.alloc_step ?_, hAB.2.2.2, Nat.lt_succ_self _, ?_⟩
          · intro c hc
            simp only [Node.children] at hc
            obtain ⟨⟨i, hi⟩, rfl⟩ := List.mem_iff_get.mp hc
            exact (hboundsN i hi).1
          · refine HasTree.arrn alloc_mem_new (hlenN.trans hlen) ?_
            intro i h1 h2
            exact HasTree.frame (htreesN i h1 h2) hAB.1.bound
              (alloc_lowAgree (le_refl _))

theorem optionalResourceEdit_EditOk {n₀ : ℕ} {st : Store} {root : ℕ}
    (rt : String) (vals : Option (List (Option (String × String))))
    (hwf : st.Wf) (hca : ClosedAbove n₀ st) (hn : n₀ ≤ st.next)
    (hroot : n₀ ≤ root) :
    EditOk n₀ st (match vals with
      | some vs => applyResourceOptimizationH st root rt vs
      | none => st) := by
  cases vals with
  | none => exact EditOk.refl hwf hca
  | some vs => exact applyResourceOptimizationH_EditOk hwf hca hn hroot

theorem optionalReplicaEdit_EditOk {n₀ : ℕ} {st : Store} {root : ℕ}
    (v : Option String)
    (hwf : st.Wf) (hca : ClosedAbove n₀ st) (hn : n₀ ≤ st.next)
    (hroot : n₀ ≤ root) :
    EditOk n₀ st (match v with
      | some s => applyReplicaOptimizationH st root s
      | none => st) := by
  cases v with
  | none => exact EditOk.refl hwf hca
  | some s => exact applyReplicaOptimizationH_EditOk hwf hca hn hroot

/-- C10: for every supported workload, generating an optimized
configuration leaves its inputs unchanged.  Whenever the
copy-then-edit pipeline of `optimizeDeployment` succeeds on a manifest heap
whose root denotes the tree `t`, (i) no address of the original heap (all
of which lie below the allocator mark `st.next`) is written, (ii) the
original root still denotes exactly `t` afterwards, (iii) the returned
root is a fresh address outside the original heap, and (iv) the optimized
unit is a distinct record carrying the fresh `UnitID` whose
`UpstreamUnitID` is the original unit's `UnitID`. -/
theorem C10_optimization_preserves_original
    {fuel : ℕ} {st : Store} {root : ℕ} {t : Tree}
    {cpuVals memVals : Option (List (Option (String × String)))}
    {replicaVal : Option String} {stx : Store} {newRoot : ℕ}
    {newId data : String} {u : Unit}
    (hwf : st.Wf) (ht : HasTree st.mem root t)
    (hrun : optimizeDeploymentManifest fuel st root cpuVals memVals replicaVal
      = some (stx, newRoot))
    (hid : newId ≠ u.UnitID) :
    lowAgree st.next st.mem stx.mem ∧
    HasTree stx.mem root t ∧
    st.next ≤ newRoot ∧
    (optimizedUnit newId u data).UnitID = newId ∧
    (optimizedUnit newId u data).UpstreamUnitID = some u.UnitID ∧
    optimizedUnit newId u data ≠ u := by
  unfold optimizeDeploymentManifest at hrun
  cases hcv : copyValue fuel st root with
  | none => rw [hcv] at hrun; cases hrun
  | some pr =>
      obtain ⟨st1, nr⟩ := pr
      rw [hcv] at hrun
      dsimp only at hrun
      obtain ⟨rfl, rfl⟩ := Prod.ext_iff.mp (Option.some.inj hrun)
      obtain ⟨hCO, hnr1, hnr2, htc⟩ :=
        copyValue_spec fuel st root t st1 nr hwf ht hcv
      have h2 := optionalResourceEdit_EditOk "cpu" cpuVals hCO.1 hCO.2.1
        hCO.2.2.2 hnr1
      have h3 := optionalResourceEdit_EditOk "memory" memVals h2.1 h2.2.1
        (le_trans hCO.2.2.2 h2.2.2.2) hnr1
      have h4 := optionalReplicaEdit_EditOk replicaVal (h2.trans h3).1
        (h2.trans h3).2.1 (le_trans (le_trans hCO.2.2.2 h2.2.2.2) h3.2.2.2) hnr1
      have hAll := (h2.trans h3).trans h4
      refine ⟨lowAgree_trans hCO.2.2.1 hAll.2.2.1 (le_refl _),
        HasTree.frame ht hwf.bound
          (lowAgree_trans hCO.2.2.1 hAll.2.2.1 (le_refl _)),
        hnr1, rfl, rfl, ?_⟩
      intro heq
      exact hid (by simpa [optimizedUnit] using congrArg Unit.UnitID heq)

theorem stW_Wf : stW.Wf := by
  intro a ha
  have h3 : listW.length ≤ a := by simpa [stW, listW] using ha
  exact List.get?_eq_none.mpr h3

theorem treeW_has : HasTree stW.mem 0 treeW := by
  refine HasTree.mapn rfl rfl ?_ ?_
  · intro i h1 h2
    have h0 : i = 0 := by simp at h1; omega
    subst h0; rfl
  · intro i h1 h2
    have h0 : i = 0 := by simp at h1; omega
    subst h0
    refine HasTree.mapn rfl rfl ?_ ?_
    · intro j hj1 hj2
      have hj0 : j = 0 := by simp at hj1; omega
      subst hj0; rfl
    · intro j hj1 hj2
      have hj0 : j = 0 := by simp at hj1; omega
      subst hj0
      exact HasTree.prim rfl

/-- Witness for C10 at the concrete heap `stW` with a replica edit. -/
theorem C10_optimization_preserves_original_witness :
    lowAgree stW.next stW.mem stWx.mem ∧
    HasTree stWx.mem 0 treeW ∧
    stW.next ≤ rootWx ∧
    (optimizedUnit "unit-2" unitW "yaml2").UnitID = "unit-2" ∧
    (optimizedUnit "unit-2" unitW "yaml2").UpstreamUnitID = some unitW.UnitID ∧
    optimizedUnit "unit-2" unitW "yaml2" ≠ unitW :=
  @C10_optimization_preserves_original 4 stW 0 treeW none none (some "2")
    stWx rootWx "unit-2" "yaml2" unitW stW_Wf treeW_has (by rfl) (by decide)

end Sdk
